import Mathlib

/-!
# Icinga 2 host object model (`lib/icinga/host.cpp`)

A shallow embedding of `Host`: dependency resolution and the reachability
verdict (`Host::IsReachable`), the service-by-host cache, and the reconciliation
of a host's derived services (`Host::UpdateSlaveServices`).

Conventions of the embedding:

* an object pointer is the object it points to, a null pointer is `none`;
  a `weak_ptr` is the result of `lock()`, `none` when it has expired;
* a `Dictionary` is the list of its entries in iteration order;
* a C++ exception is the `Except.error` of the result, a failed `assert` is
  `Error.assertion_failed`, a call through a null pointer is
  `Error.null_dereference`;
* `ObjectLock` and the mutexes guard against other threads and have no effect
  on a single evaluation, so they are not represented.
-/

deriving instance DecidableEq for Except

namespace Icinga

/-! ## Values and dictionaries -/

/-- A `Value`: blank, a scalar (a number is held by its text), a `Dictionary`
object, or an object of any other class. -/
inductive Value where
  | Empty : Value
  | Scalar (s : String) : Value
  | Mapping (entries : List (String × Value)) : Value
  | Object (id : String) : Value

/-- A `Dictionary` as the list of its entries in iteration order. -/
abbrev Dictionary := List (String × Value)

mutual
/-- Decidable equality of values. -/
def Value.decEq : (a b : Value) → Decidable (a = b)
  | .Empty, .Empty => isTrue rfl
  | .Scalar s, .Scalar t =>
    if h : s = t then isTrue (by rw [h]) else isFalse (by intro e; cases e; exact h rfl)
  | .Object s, .Object t =>
    if h : s = t then isTrue (by rw [h]) else isFalse (by intro e; cases e; exact h rfl)
  | .Mapping d, .Mapping e =>
    match Value.decEqEntries d e with
    | isTrue h => isTrue (by rw [h])
    | isFalse h => isFalse (by intro e; cases e; exact h rfl)
  | .Empty, .Scalar _ => isFalse (by intro e; cases e)
  | .Empty, .Mapping _ => isFalse (by intro e; cases e)
  | .Empty, .Object _ => isFalse (by intro e; cases e)
  | .Scalar _, .Empty => isFalse (by intro e; cases e)
  | .Scalar _, .Mapping _ => isFalse (by intro e; cases e)
  | .Scalar _, .Object _ => isFalse (by intro e; cases e)
  | .Mapping _, .Empty => isFalse (by intro e; cases e)
  | .Mapping _, .Scalar _ => isFalse (by intro e; cases e)
  | .Mapping _, .Object _ => isFalse (by intro e; cases e)
  | .Object _, .Empty => isFalse (by intro e; cases e)
  | .Object _, .Scalar _ => isFalse (by intro e; cases e)
  | .Object _, .Mapping _ => isFalse (by intro e; cases e)
/-- Decidable equality of entry lists. -/
def Value.decEqEntries : (a b : List (String × Value)) → Decidable (a = b)
  | [], [] => isTrue rfl
  | [], _ :: _ => isFalse (by intro e; cases e)
  | _ :: _, [] => isFalse (by intro e; cases e)
  | (k, v) :: d, (k2, v2) :: e =>
    if hk : k = k2 then
      match Value.decEq v v2 with
      | isTrue hv =>
        match Value.decEqEntries d e with
        | isTrue hd => isTrue (by rw [hk, hv, hd])
        | isFalse hd => isFalse (by intro e; cases e; exact hd rfl)
      | isFalse hv => isFalse (by intro e; cases e; exact hv rfl)
    else isFalse (by intro e; cases e; exact hk rfl)
end

instance : DecidableEq Value := Value.decEq

/-- `Value::IsEmpty`. -/
def Value.IsEmpty : Value → Bool
  | .Empty => true
  | _ => false

/-- `Value::IsObject`: the value holds an object pointer. -/
def Value.IsObject : Value → Bool
  | .Mapping _ => true
  | .Object _ => true
  | _ => false

/-- `Value::IsScalar`: neither blank nor an object. -/
def Value.IsScalar (v : Value) : Bool :=
  !v.IsEmpty && !v.IsObject

/-- `Value::IsObjectType<Dictionary>`. -/
def Value.IsDictionary : Value → Bool
  | .Mapping _ => true
  | _ => false

/-- The errors an evaluation can end with. -/
inductive Error where
  | invalid_argument (what : String) : Error
  | InvalidAttributeType : Error
  | UnresolvedParent : Error
  | CyclicTemplate : Error
  | assertion_failed : Error
  | null_dereference : Error
  deriving DecidableEq

/-- Modelled from the spec: the conversion of a `Value` to `String` (the
conversion operators of `Value` are not in the sources). Section 4.1: a typed
accessor incompatible with the stored tag fails with `InvalidAttributeType`;
a blank value gives the default-constructed string. -/
def Value.toStr : Value → Except Error String
  | .Empty => .ok ""
  | .Scalar s => .ok s
  | .Mapping _ => .error .InvalidAttributeType
  | .Object _ => .error .InvalidAttributeType

/-- Modelled from the spec: the conversion of a `Value` to `Dictionary::Ptr`
(not in the sources). A blank value gives the null pointer, which is what the
`if (dependencies)` and `if (templates)` tests of the sources rely on; a value
of another tag fails with `InvalidAttributeType` (section 4.1). -/
def Value.toDictionary : Value → Except Error (Option Dictionary)
  | .Empty => .ok none
  | .Mapping d => .ok (some d)
  | .Scalar _ => .error .InvalidAttributeType
  | .Object _ => .error .InvalidAttributeType

/-- `Dictionary::Get`: the value stored under `key`, blank when absent. -/
def Dictionary.Get : Dictionary → String → Value
  | [], _ => .Empty
  | (k, v) :: rest, key => if k = key then v else Dictionary.Get rest key

/-- `Dictionary::Contains`. -/
def Dictionary.Contains : Dictionary → String → Bool
  | [], _ => false
  | (k, _) :: rest, key => if k = key then true else Dictionary.Contains rest key

/-- The value found by `Dictionary.Get`, with the size bound that makes the
recursion of `Host.GetServiceByShortName` terminate. -/
def Dictionary.GetSized : (d : Dictionary) → (key : String) →
    { v : Value // v = Dictionary.Get d key ∧ sizeOf v < 1 + sizeOf d }
  | [], _ => ⟨.Empty, rfl, by simp⟩
  | (k, v) :: rest, key =>
    if h : k = key then
      ⟨v, by simp [Dictionary.Get, h], by simp; omega⟩
    else
      ⟨(Dictionary.GetSized rest key).1,
        by simp [Dictionary.Get, h, (Dictionary.GetSized rest key).2.1],
        by have := (Dictionary.GetSized rest key).2.2; simp; omega⟩

/-- Assignment `m[key] = value` of a `std::map` with string keys: the value
under an existing key is replaced, a new key gets a new entry. (The entry is
put last; no definition below depends on where it is put.) -/
def mapSet {β : Type} : List (String × β) → String → β → List (String × β)
  | [], key, value => [(key, value)]
  | (k, v) :: rest, key, value =>
    if k = key then (k, value) :: rest else (k, v) :: mapSet rest key value

/-- Lookup `m.find(key)` in a `std::map` with string keys. -/
def mapFind {β : Type} : List (String × β) → String → Option β
  | [], _ => none
  | (k, v) :: rest, key => if k = key then some v else mapFind rest key

/-! ## Services, hosts and the registry -/

/-- Modelled from the spec: the states of a service (the enumeration is not in
the sources, which name `StateOK` and `StateWarning`; section 8 names
Critical). -/
inductive ServiceState where
  | StateOK
  | StateWarning
  | StateCritical
  | StateUnknown
  deriving DecidableEq

/-- Modelled from the spec: the state types (the sources name
`StateTypeSoft`; the glossary names hard and soft). -/
inductive StateType where
  | StateTypeSoft
  | StateTypeHard
  deriving DecidableEq

/-- A `Service` object, by the accessors that `host.cpp` calls on it. -/
structure Service where
  /-- `GetName()`. -/
  name : String
  /-- The name of `GetHost()`. -/
  host_name : String
  /-- `GetShortName()`. -/
  short_name : String
  /-- `GetState()`. -/
  state : ServiceState
  /-- `GetStateType()`. -/
  stateType : StateType
  /-- `GetLastCheckResult()`, `none` while the service is pending. -/
  lastCheckResult : Option Dictionary
  /-- `GetCurrentCheckAttempt()`. -/
  currentCheckAttempt : Nat
  /-- `GetMaxCheckAttempts()`. -/
  maxCheckAttempts : Nat
  deriving DecidableEq

/-- The operator of an expression: `OperatorSet` or `OperatorPlus`. -/
inductive ExpressionOperator where
  | OperatorSet
  | OperatorPlus
  deriving DecidableEq

/-- An expression `(key, operator, value)` of a configuration item. -/
structure Expression where
  key : String
  op : ExpressionOperator
  value : Value
  deriving DecidableEq

/-- A `ConfigItemBuilder`: debug info, type, name, parents and expressions, in
the order they were added. -/
structure ConfigItemBuilder where
  debug_info : String
  type : String
  name : String
  parents : List String
  expressions : List Expression
  deriving DecidableEq

/-- A `ConfigItem`, the result of `ConfigItemBuilder::Compile`. -/
structure ConfigItem where
  type : String
  name : String
  parents : List String
  expressions : List Expression
  debug_info : String
  deriving DecidableEq

/-- The member variables of `Host` that hold attributes. -/
inductive Member where
  | m_DisplayName
  | m_HostGroups
  | m_Macros
  | m_HostDependencies
  | m_ServiceDependencies
  | m_HostCheck
  | m_SlaveServices
  deriving DecidableEq

/-- The constructor `Host::Host`: the attribute names it registers, each with
the member variable it binds to that name. -/
def Host.registeredAttributes : List (String × Member) :=
  [ ("display_name", .m_DisplayName),
    ("hostgroups", .m_HostGroups),
    ("macros", .m_Macros),
    ("hostdependencies", .m_HostDependencies),
    ("servicedependencies", .m_ServiceDependencies),
    ("hostcheck", .m_HostCheck) ]

/-- A `Host` object. -/
structure Host where
  /-- `GetName()`. -/
  name : String
  /-- `IsAbstract()`. -/
  abstract : Bool
  /-- The attribute store read by `Get`; the members bound by the constructor
  (`m_DisplayName`, `m_HostDependencies`, ...) read the value under their key. -/
  attributes : Dictionary
  /-- The member `m_SlaveServices`: child name to configuration item. -/
  m_SlaveServices : Option (List (String × Option ConfigItem))
  /-- The attribute `slave_services` of the store, which holds configuration
  items rather than values. -/
  slave_services : Option (List (String × Option ConfigItem))
  /-- The member `m_HostCheckService` after `lock()`. -/
  m_HostCheckService : Option Service
  deriving DecidableEq

/-- The registries: the `Host` and `Service` objects of `DynamicObject` and the
items of `ConfigItem`. Names are unique within a registry: a lookup returns the
first object of that name. -/
structure World where
  hosts : List Host
  services : List Service
  items : List ConfigItem
  /-- The template compiler, which is not in the sources: the error with which
  `ConfigItemBuilder::Compile` rejects a builder, `none` when it accepts it. -/
  compileFailure : ConfigItemBuilder → Option Error

/-- The static cache `m_ServicesCache` with its flag `m_ServicesCacheValid`:
host name to short name to weak pointer (`none`: expired). An absent host name
and a host name bound to the empty map read the same; `operator[]` on an absent
name therefore adds no entry here. -/
structure ServicesCache where
  m_ServicesCache : List (String × List (String × Option Service))
  m_ServicesCacheValid : Bool
  deriving DecidableEq

/-- `DynamicObject::GetObject("Host", name)`. -/
def World.GetHostObject (w : World) (name : String) : Option Host :=
  w.hosts.find? (fun h => h.name = name)

/-- `DynamicObject::GetObject("Service", name)`. -/
def World.GetServiceObject (w : World) (name : String) : Option Service :=
  w.services.find? (fun s => s.name = name)

/-- `ConfigItem::GetObject(type, name)`. -/
def World.GetItem (w : World) (type name : String) : Option ConfigItem :=
  w.items.find? (fun i => i.type = type ∧ i.name = name)

/-- `Host::GetByName`. -/
def Host.GetByName (w : World) (name : String) : Except Error Host :=
  match w.GetHostObject name with
  | none => .error (.invalid_argument ("Host '" ++ name ++ "' does not exist."))
  | some h => .ok h

/-- Modelled from the spec: `Service::GetByName` (`service.cpp` is not in the
sources), after `Host::GetByName`: the registered service of that name
(section 6, `GetObject(type,name) -> optional`), an error when there is none. -/
def Service.GetByName (w : World) (name : String) : Except Error Service :=
  match w.GetServiceObject name with
  | none => .error (.invalid_argument ("Service '" ++ name ++ "' does not exist."))
  | some s => .ok s

/-- `Host::GetHostDependencies`: the member bound to `hostdependencies`. -/
def Host.GetHostDependencies (self : Host) : Except Error (Option Dictionary) :=
  (Dictionary.Get self.attributes "hostdependencies").toDictionary

/-- `Host::GetServiceDependencies`: the member bound to `servicedependencies`. -/
def Host.GetServiceDependencies (self : Host) : Except Error (Option Dictionary) :=
  (Dictionary.Get self.attributes "servicedependencies").toDictionary

/-- `Host::GetHostCheckService`. -/
def Host.GetHostCheckService (self : Host) : Option Service :=
  self.m_HostCheckService

/-! ## The service-by-host cache -/

/-- The assignment `m_ServicesCache[host_name][short_name] = service`. -/
def cacheAssign (cache : List (String × List (String × Option Service)))
    (host_name short_name : String) (service : Service) :
    List (String × List (String × Option Service)) :=
  mapSet cache host_name (mapSet ((mapFind cache host_name).getD []) short_name (some service))

/-- `Host::InvalidateServicesCache`. -/
def Host.InvalidateServicesCache (_c : ServicesCache) : ServicesCache :=
  { m_ServicesCache := [], m_ServicesCacheValid := false }

/-- `Host::ValidateServicesCache`: nothing when the flag is set; otherwise the
content is cleared and rebuilt from the registered services. (`Service::GetHost`
is not in the sources; the host name is the service's `host_name`.) -/
def Host.ValidateServicesCache (w : World) (c : ServicesCache) : ServicesCache :=
  if c.m_ServicesCacheValid then c
  else
    { m_ServicesCache :=
        w.services.foldl (fun cache service =>
          cacheAssign cache service.host_name service.short_name service) [],
      m_ServicesCacheValid := true }

/-- The read `m_ServicesCache[GetName()]`. -/
def ServicesCache.ofHost (c : ServicesCache) (host_name : String) :
    List (String × Option Service) :=
  (mapFind c.m_ServicesCache host_name).getD []

/-! ## Dependency resolution -/

/-- `Host::GetServiceByShortName`, with the cache before the call; the result
comes with the cache after the call. -/
def Host.GetServiceByShortName (w : World) (self : Host) (name : Value)
    (c : ServicesCache) : Except Error Service × ServicesCache :=
  match name with
  | .Scalar s =>
    let c1 := Host.ValidateServicesCache w c
    match mapFind (c1.ofHost self.name) s with
    | some (some service) => (.ok service, c1)
    | some none => (.error .assertion_failed, c1)
    | none => (Service.GetByName w s, c1)
  | .Mapping dict =>
    match (Dictionary.Get dict "host").toStr with
    | .error e => (.error e, c)
    | .ok host_name =>
      match Host.GetByName w host_name with
      | .error e => (.error e, c)
      | .ok host => Host.GetServiceByShortName w host (Dictionary.GetSized dict "service").1 c
  | _ => (.error (.invalid_argument "Host/Service name pair is invalid."), c)
termination_by sizeOf name
decreasing_by
  have h := (Dictionary.GetSized dict "service").2.2
  simp
  omega

/-- `set::insert` for a set of service pointers: nothing is added when the
object is in the set already. -/
def insertService (parents : List Service) (s : Service) : List Service :=
  if s ∈ parents then parents else parents ++ [s]

/-- `set::insert` for a set of host pointers. Every host put in the set comes
from the registry, where an object is identified by its name. -/
def insertHost (parents : List Host) (h : Host) : List Host :=
  if parents.any (fun p => p.name = h.name) then parents else parents ++ [h]

/-- The loop of `Host::GetParentServices` from the set built so far. -/
def Host.GetParentServices.loop (w : World) (self : Host) :
    List (String × Value) → List Service → ServicesCache →
      Except Error (List Service) × ServicesCache
  | [], parents, c => (.ok parents, c)
  | (_, value) :: rest, parents, c =>
    match Host.GetServiceByShortName w self value c with
    | (.error e, c1) => (.error e, c1)
    | (.ok service, c1) =>
      Host.GetParentServices.loop w self rest (insertService parents service) c1

/-- `Host::GetParentServices`. -/
def Host.GetParentServices (w : World) (self : Host) (c : ServicesCache) :
    Except Error (List Service) × ServicesCache :=
  match self.GetServiceDependencies with
  | .error e => (.error e, c)
  | .ok none => (.ok [], c)
  | .ok (some dependencies) => Host.GetParentServices.loop w self dependencies [] c

/-- The loop of `Host::GetParentHosts` from the set built so far. -/
def Host.GetParentHosts.loop (w : World) (self : Host) :
    List (String × Value) → List Host → Except Error (List Host)
  | [], parents => .ok parents
  | (_, value) :: rest, parents =>
    match value.toStr with
    | .error e => .error e
    | .ok v =>
      if v = self.name then Host.GetParentHosts.loop w self rest parents
      else
        match Host.GetByName w v with
        | .error e => .error e
        | .ok host => Host.GetParentHosts.loop w self rest (insertHost parents host)

/-- `Host::GetParentHosts`. -/
def Host.GetParentHosts (w : World) (self : Host) : Except Error (List Host) :=
  match self.GetHostDependencies with
  | .error e => .error e
  | .ok none => .ok []
  | .ok (some dependencies) => Host.GetParentHosts.loop w self dependencies []

/-- The loop of `Host::GetParentServices` over a resolution `resolve` that has
no effect on the cache. -/
def Host.resolveServices (resolve : Value → Except Error Service) :
    List (String × Value) → List Service → Except Error (List Service)
  | [], parents => .ok parents
  | (_, value) :: rest, parents =>
    match resolve value with
    | .error e => .error e
    | .ok service => Host.resolveServices resolve rest (insertService parents service)

/-! ## Reachability -/

/-- The first loop of `Host::IsReachable`: `false` when it returns `false`,
`true` when it runs to its end. -/
def Host.IsReachable.serviceLoop : List Service → Bool
  | [] => true
  | service :: rest =>
    -- ignore pending services
    if service.lastCheckResult.isNone then Host.IsReachable.serviceLoop rest
    -- ignore soft states
    else if service.stateType = .StateTypeSoft then Host.IsReachable.serviceLoop rest
    -- ignore services states OK and Warning
    else if service.state = .StateOK ∨ service.state = .StateWarning then
      Host.IsReachable.serviceLoop rest
    else false

/-- The second loop of `Host::IsReachable`. -/
def Host.IsReachable.hostLoop : List Host → Bool
  | [] => true
  | host :: rest =>
    match host.GetHostCheckService with
    | some hc =>
      -- ignore hosts that are up
      if hc.state = .StateOK then Host.IsReachable.hostLoop rest else false
    | none => false

/-- `Host::IsReachable`. -/
def Host.IsReachable (w : World) (self : Host) (c : ServicesCache) : Except Error Bool :=
  match (Host.GetParentServices w self c).1 with
  | .error e => .error e
  | .ok parentServices =>
    if Host.IsReachable.serviceLoop parentServices = false then .ok false
    else
      match Host.GetParentHosts w self with
      | .error e => .error e
      | .ok parentHosts =>
        if Host.IsReachable.hostLoop parentHosts = false then .ok false
        else .ok true

/-- The way `Host::IsReachable` puts its two loops together: the outcome of the
first loop over the resolved services, then the outcome of the second loop over
the resolved hosts. -/
def Host.IsReachable.combine (services hosts : Except Error Bool) : Except Error Bool :=
  match services with
  | .error e => .error e
  | .ok false => .ok false
  | .ok true =>
    match hosts with
    | .error e => .error e
    | .ok false => .ok false
    | .ok true => .ok true

/-- The hosts named by the entries of a dependency dictionary, every entry
resolved through the registry and none left out. -/
def Host.resolveHosts (w : World) : List (String × Value) → List Host → Except Error (List Host)
  | [], parents => .ok parents
  | (_, value) :: rest, parents =>
    match value.toStr with
    | .error e => .error e
    | .ok v =>
      match Host.GetByName w v with
      | .error e => .error e
      | .ok host => Host.resolveHosts w rest (insertHost parents host)

/-! ## Reconciliation of the derived services -/

/-- `ConfigItemBuilder::AddExpression`. -/
def ConfigItemBuilder.AddExpression (builder : ConfigItemBuilder) (key : String)
    (op : ExpressionOperator) (value : Value) : ConfigItemBuilder :=
  { builder with expressions := builder.expressions ++ [{ key := key, op := op, value := value }] }

/-- `ConfigItemBuilder::AddParent`. -/
def ConfigItemBuilder.AddParent (builder : ConfigItemBuilder) (parent : String) :
    ConfigItemBuilder :=
  { builder with parents := builder.parents ++ [parent] }

/-- Modelled from the spec: `ConfigItemBuilder::Compile` (the template compiler
is not in the sources). Section 4.2: compilation fails with `UnresolvedParent`
or `CyclicTemplate`, or produces a new object from the builder's type, name,
parents and expressions; which builders fail is decided by the registry state,
here `failure`. -/
def ConfigItemBuilder.Compile (failure : ConfigItemBuilder → Option Error)
    (builder : ConfigItemBuilder) : Except Error ConfigItem :=
  match failure builder with
  | some e => .error e
  | none =>
    .ok { type := builder.type, name := builder.name, parents := builder.parents,
          expressions := builder.expressions, debug_info := builder.debug_info }

/-- `CopyServiceAttributes<copyServiceAttrs>(serviceDesc, builder)`;
`serviceDesc` is the attribute store of a host or a dictionary. -/
def CopyServiceAttributes (copyServiceAttrs : Bool) (serviceDesc : Dictionary)
    (builder : ConfigItemBuilder) : ConfigItemBuilder :=
  let macros := Dictionary.Get serviceDesc "macros"
  let builder :=
    if !macros.IsEmpty then builder.AddExpression "macros" .OperatorPlus macros else builder
  let checkInterval := Dictionary.Get serviceDesc "check_interval"
  let builder :=
    if !checkInterval.IsEmpty then
      builder.AddExpression "check_interval" .OperatorSet checkInterval
    else builder
  let retryInterval := Dictionary.Get serviceDesc "retry_interval"
  let builder :=
    if !retryInterval.IsEmpty then
      builder.AddExpression "retry_interval" .OperatorSet retryInterval
    else builder
  let sgroups := Dictionary.Get serviceDesc "servicegroups"
  let builder :=
    if !sgroups.IsEmpty then builder.AddExpression "servicegroups" .OperatorPlus sgroups
    else builder
  let checkers := Dictionary.Get serviceDesc "checkers"
  let builder :=
    if !checkers.IsEmpty then builder.AddExpression "checkers" .OperatorSet checkers
    else builder
  let short_name := Dictionary.Get serviceDesc "short_name"
  let builder :=
    if !short_name.IsEmpty then builder.AddExpression "short_name" .OperatorSet short_name
    else builder
  if copyServiceAttrs then
    let servicedependencies := Dictionary.Get serviceDesc "servicedependencies"
    let builder :=
      if !servicedependencies.IsEmpty then
        builder.AddExpression "servicedependencies" .OperatorPlus servicedependencies
      else builder
    let hostdependencies := Dictionary.Get serviceDesc "hostdependencies"
    if !hostdependencies.IsEmpty then
      builder.AddExpression "hostdependencies" .OperatorPlus hostdependencies
    else builder
  else builder

/-- The loop `BOOST_FOREACH(tie(tuples::ignore, tmpl), templates)` of
`Host::UpdateSlaveServices`: every value, as a string, becomes a parent. -/
def Host.UpdateSlaveServices.addTemplates :
    List (String × Value) → ConfigItemBuilder → Except Error ConfigItemBuilder
  | [], builder => .ok builder
  | (_, tmpl) :: rest, builder =>
    match tmpl.toStr with
    | .error e => .error e
    | .ok t => Host.UpdateSlaveServices.addTemplates rest (builder.AddParent t)

/-- The name under which one entry of the `services` dictionary is processed:
`if (svcdesc.IsScalar()) svcname = svcdesc;`. -/
def Host.UpdateSlaveServices.svcname (svcname : String) (svcdesc : Value) : String :=
  match svcdesc with
  | .Scalar s => s
  | _ => svcname

/-- The body of the loop of `Host::UpdateSlaveServices` up to
`builder->Compile()`: the builder made for one entry `(svcname, svcdesc)` of
the `services` dictionary. -/
def Host.UpdateSlaveServices.entryBuilder (self : Host) (debug_info : String)
    (svcname : String) (svcdesc : Value) : Except Error ConfigItemBuilder :=
  let host_name := self.name
  let svcname := Host.UpdateSlaveServices.svcname svcname svcdesc
  let name := host_name ++ "-" ++ svcname
  let builder : ConfigItemBuilder :=
    { debug_info := debug_info, type := "Service", name := name, parents := [],
      expressions := [] }
  let builder := builder.AddExpression "host_name" .OperatorSet (.Scalar host_name)
  let builder := builder.AddExpression "display_name" .OperatorSet (.Scalar svcname)
  let builder := builder.AddExpression "short_name" .OperatorSet (.Scalar svcname)
  let builder := CopyServiceAttributes false self.attributes builder
  match svcdesc with
  | .Scalar s => .ok (builder.AddParent s)
  | .Mapping service =>
    match (Dictionary.Get service "templates").toDictionary with
    | .error e => .error e
    | .ok (some templates) =>
      match Host.UpdateSlaveServices.addTemplates templates builder with
      | .error e => .error e
      | .ok builder => .ok (CopyServiceAttributes true service builder)
    | .ok none => .ok (CopyServiceAttributes true service (builder.AddParent svcname))
  | _ =>
    .error (.invalid_argument "Service description must be either a string or a dictionary.")

/-- One pass of the loop body of `Host::UpdateSlaveServices`: the item compiled
from the builder of the entry. -/
def Host.UpdateSlaveServices.entryItem (w : World) (self : Host) (debug_info : String)
    (entry : String × Value) : Except Error ConfigItem :=
  match Host.UpdateSlaveServices.entryBuilder self debug_info entry.1 entry.2 with
  | .error e => .error e
  | .ok builder => builder.Compile w.compileFailure

/-- The expression one rule of `CopyServiceAttributes` adds for `key`: none when
the attribute is blank, otherwise the attribute under the rule's operator. -/
def copyRule (serviceDesc : Dictionary) (key : String) (op : ExpressionOperator) :
    List Expression :=
  if (Dictionary.Get serviceDesc key).IsEmpty then []
  else [{ key := key, op := op, value := Dictionary.Get serviceDesc key }]

/-- The copy rules in words: `macros` (append), `check_interval` (set),
`retry_interval` (set), `servicegroups` (append), `checkers` (set) and
`short_name` (set), each when not blank; with `withDependencies`, also
`servicedependencies` and `hostdependencies` (append), each when not blank. -/
def copiedExpressions (withDependencies : Bool) (serviceDesc : Dictionary) : List Expression :=
  copyRule serviceDesc "macros" .OperatorPlus ++
  copyRule serviceDesc "check_interval" .OperatorSet ++
  copyRule serviceDesc "retry_interval" .OperatorSet ++
  copyRule serviceDesc "servicegroups" .OperatorPlus ++
  copyRule serviceDesc "checkers" .OperatorSet ++
  copyRule serviceDesc "short_name" .OperatorSet ++
  (if withDependencies then
    copyRule serviceDesc "servicedependencies" .OperatorPlus ++
    copyRule serviceDesc "hostdependencies" .OperatorPlus
   else [])

/-- The loop over the `services` dictionary: the new dictionary and the items
committed so far go in; they come out with the outcome of the loop. What was
committed before an exception stays committed. (`ConfigItem::Commit` is not in
the sources; the call is recorded, in call order, and has no other effect
here.) -/
def Host.UpdateSlaveServices.loop (w : World) (self : Host) (debug_info : String) :
    List (String × Value) → List (String × Option ConfigItem) → List ConfigItem →
      Except Error (List (String × Option ConfigItem)) × List ConfigItem
  | [], newServices, committed => (.ok newServices, committed)
  | (svcname, svcdesc) :: rest, newServices, committed =>
    match Host.UpdateSlaveServices.entryBuilder self debug_info svcname svcdesc with
    | .error e => (.error e, committed)
    | .ok builder =>
      match builder.Compile w.compileFailure with
      | .error e => (.error e, committed)
      | .ok serviceItem =>
        Host.UpdateSlaveServices.loop w self debug_info rest
          (mapSet newServices builder.name (some serviceItem)) (committed ++ [serviceItem])

/-- The loop over the old dictionary: the items `Unregister` is called on. -/
def Host.UpdateSlaveServices.unregisterLoop (newServices : List (String × Option ConfigItem)) :
    List (String × Option ConfigItem) → List ConfigItem
  | [] => []
  | (_, none) :: rest => Host.UpdateSlaveServices.unregisterLoop newServices rest
  | (_, some service) :: rest =>
    if (mapFind newServices service.name).isNone then
      service :: Host.UpdateSlaveServices.unregisterLoop newServices rest
    else Host.UpdateSlaveServices.unregisterLoop newServices rest

/-- Modelled from the spec: `DynamicObject::Set("slave_services", value)` (the
attribute store is not in the sources). Section 4.1: `Set` replaces the value
stored under the key; a member variable holds the value of a key when the
constructor has bound it to that key. The change handler
`Host::OnAttributeChanged` has no branch for this key. -/
def Host.SetSlaveServices (self : Host) (value : List (String × Option ConfigItem)) : Host :=
  match mapFind Host.registeredAttributes "slave_services" with
  | some .m_SlaveServices =>
    { self with m_SlaveServices := some value, slave_services := some value }
  | _ => { self with slave_services := some value }

/-- What a call of `Host::UpdateSlaveServices` leaves behind. -/
structure Reconciliation where
  /-- The owner after the call. -/
  self : Host
  /-- The items compiled and given to `ConfigItem::Commit`, in call order. -/
  committed : List ConfigItem
  /-- The items `Unregister` was called on, in call order. -/
  unregistered : List ConfigItem
  /-- The new dictionary, when the loop over the descriptions has ended. -/
  newServices : Option (List (String × Option ConfigItem))
  /-- Normal return, or the exception. -/
  result : Except Error Unit
  deriving DecidableEq

/-- `Host::UpdateSlaveServices`. -/
def Host.UpdateSlaveServices (w : World) (self : Host) : Reconciliation :=
  let host_name := self.name
  match w.GetItem "Host" host_name with
  | none =>
    { self := self, committed := [], unregistered := [], newServices := none, result := .ok () }
  | some item =>
    -- Don't create slave services unless we own this object and it's not a template.
    if self.abstract then
      { self := self, committed := [], unregistered := [], newServices := none,
        result := .ok () }
    else
      let oldServices := self.m_SlaveServices
      match (Dictionary.Get self.attributes "services").toDictionary with
      | .error e =>
        { self := self, committed := [], unregistered := [], newServices := none,
          result := .error e }
      | .ok serviceDescs =>
        let debug_info := item.debug_info
        let built : Except Error (List (String × Option ConfigItem)) × List ConfigItem :=
          match serviceDescs with
          | none => (.ok [], [])
          | some descs => Host.UpdateSlaveServices.loop w self debug_info descs [] []
        match built with
        | (.error e, committed) =>
          { self := self, committed := committed, unregistered := [], newServices := none,
            result := .error e }
        | (.ok newServices, committed) =>
          let unregistered :=
            match oldServices with
            | none => []
            | some old => Host.UpdateSlaveServices.unregisterLoop newServices old
          { self := self.SetSlaveServices newServices, committed := committed,
            unregistered := unregistered, newServices := some newServices, result := .ok () }

/-! ## The services of a host -/

/-- The loop of `Host::GetServices` over `m_ServicesCache[GetName()]`: an
expired weak pointer is skipped, a live one is put in the set. -/
def Host.GetServices.loop : List (String × Option Service) → List Service → List Service
  | [], services => services
  | (_, none) :: rest, services => Host.GetServices.loop rest services
  | (_, some service) :: rest, services =>
    Host.GetServices.loop rest (insertService services service)

/-- `Host::GetServices`, with the cache before the call; the result comes with
the cache after the call. -/
def Host.GetServices (w : World) (self : Host) (c : ServicesCache) :
    List Service × ServicesCache :=
  let c1 := Host.ValidateServicesCache w c
  (Host.GetServices.loop (c1.ofHost self.name) [], c1)

/-! ## The dynamic macros -/

/-- The static functions of `Service` that `Host::CalculateDynamicMacros` calls
and that are not in the sources; they are taken as given. -/
structure ServiceStatics where
  /-- `Service::StateTypeToString`. -/
  StateTypeToString : StateType → String
  /-- `Service::CalculateLatency`. -/
  CalculateLatency : Dictionary → Value
  /-- `Service::CalculateExecutionTime`. -/
  CalculateExecutionTime : Dictionary → Value

/-- `Host::GetDisplayName`: the member bound to `display_name` when it is not
blank, the name of the host otherwise. -/
def Host.GetDisplayName (self : Host) : Except Error String :=
  if !(Dictionary.Get self.attributes "display_name").IsEmpty then
    (Dictionary.Get self.attributes "display_name").toStr
  else .ok self.name

/-- Modelled from the spec: `Dictionary::Set` (not in the sources), after
section 4.1: the value stored under the key is replaced, a new key gets a new
entry. -/
def Dictionary.Set (d : Dictionary) (key : String) (value : Value) : Dictionary :=
  mapSet d key value

/-- `Host::CalculateDynamicMacros`. -/
def Host.CalculateDynamicMacros (statics : ServiceStatics) (w : World) (self : Host)
    (c : ServicesCache) : Except Error Dictionary :=
  let macros : Dictionary := []
  let macros := Dictionary.Set macros "HOSTNAME" (.Scalar self.name)
  match self.GetDisplayName with
  | .error e => .error e
  | .ok displayName =>
    let macros := Dictionary.Set macros "HOSTDISPLAYNAME" (.Scalar displayName)
    let macros := Dictionary.Set macros "HOSTALIAS" (.Scalar self.name)
    let hc := self.GetHostCheckService
    match Host.IsReachable w self c with
    | .error e => .error e
    | .ok reachable =>
      let filled : Dictionary × Option Dictionary :=
        match hc with
        | some hc =>
          let state : String × String :=
            match hc.state with
            | .StateOK => ("UP", "0")
            | .StateWarning => ("UP", "0")
            | _ => ("DOWN", "1")
          let state : String × String :=
            if !reachable then ("UNREACHABLE", "2") else state
          let macros := Dictionary.Set macros "HOSTSTATE" (.Scalar state.1)
          let macros := Dictionary.Set macros "HOSTSTATEID" (.Scalar state.2)
          let macros := Dictionary.Set macros "HOSTSTATETYPE"
            (.Scalar (statics.StateTypeToString hc.stateType))
          let macros := Dictionary.Set macros "HOSTATTEMPT"
            (.Scalar (toString hc.currentCheckAttempt))
          let macros := Dictionary.Set macros "MAXHOSTATTEMPT"
            (.Scalar (toString hc.maxCheckAttempts))
          (macros, hc.lastCheckResult)
        | none => (macros, none)
      match filled with
      | (macros, some cr) =>
        let macros := Dictionary.Set macros "HOSTLATENCY" (statics.CalculateLatency cr)
        let macros := Dictionary.Set macros "HOSTEXECUTIONTIME"
          (statics.CalculateExecutionTime cr)
        let macros := Dictionary.Set macros "HOSTOUTPUT" (Dictionary.Get cr "output")
        let macros := Dictionary.Set macros "HOSTPERFDATA"
          (Dictionary.Get cr "performance_data_raw")
        .ok macros
      | (macros, none) => .ok macros

/-! ## The validation of a service dictionary -/

/-- A `ConfigCompilerContext`, by what `Host::ValidateServiceDictionary` uses of
it: the items `GetItem` finds, the flag `CompilerLinkExisting` of `GetFlags`,
and the errors added with `AddError`, each with the flag it was added with. -/
structure ConfigCompilerContext where
  items : List ConfigItem
  linkExisting : Bool
  errors : List (Bool × String)
  deriving DecidableEq

/-- `ConfigCompilerContext::GetItem(type, name)`. -/
def ConfigCompilerContext.GetItem (context : ConfigCompilerContext) (type name : String) :
    Option ConfigItem :=
  context.items.find? (fun i => i.type = type ∧ i.name = name)

/-- `ConfigCompilerContext::AddError`. -/
def ConfigCompilerContext.AddError (context : ConfigCompilerContext) (flag : Bool)
    (message : String) : ConfigCompilerContext :=
  { context with errors := context.errors ++ [(flag, message)] }

/-- The service name an entry of the attribute dictionary refers to: the
scalar; for a dictionary its `service` key when it has one, else the entry key;
`none` for an entry that is neither (`continue`). -/
def Host.ValidateServiceDictionary.entryName (key : String) (value : Value) :
    Except Error (Option String) :=
  match value with
  | .Scalar s => .ok (some s)
  | .Mapping serviceDesc =>
    if Dictionary.Contains serviceDesc "service" then
      match (Dictionary.Get serviceDesc "service").toStr with
      | .error e => .error e
      | .ok name => .ok (some name)
    else .ok (some key)
  | _ => .ok none

/-- The item an entry resolves to: the one of the compiler context, when there
is a context; the one of the registry when that gave none and there is no
context or the context links existing items. -/
def Host.ValidateServiceDictionary.findItem (w : World)
    (context : Option ConfigCompilerContext) (name : String) : Option ConfigItem :=
  let item : Option ConfigItem :=
    match context with
    | some ctx => ctx.GetItem "Service" name
    | none => none
  if item.isNone ∧ (context.isNone ∨ (context.map (fun ctx => ctx.linkExisting)) = some true) then
    w.GetItem "Service" name
  else item

/-- The loop of `Host::ValidateServiceDictionary` over the attribute
dictionary, from the compiler context `ConfigCompilerContext::GetContext()`
(`none`: the null pointer). -/
def Host.ValidateServiceDictionary.loop (w : World) (location : String) :
    List (String × Value) → Option ConfigCompilerContext →
      Except Error Unit × Option ConfigCompilerContext
  | [], context => (.ok (), context)
  | (key, value) :: rest, context =>
    match Host.ValidateServiceDictionary.entryName key value with
    | .error e => (.error e, context)
    | .ok none => Host.ValidateServiceDictionary.loop w location rest context
    | .ok (some name) =>
      match Host.ValidateServiceDictionary.findItem w context name with
      | some _ => Host.ValidateServiceDictionary.loop w location rest context
      | none =>
        match context with
        | none => (.error .null_dereference, none)
        | some ctx =>
          Host.ValidateServiceDictionary.loop w location rest
            (some (ctx.AddError false
              ("Validation failed for " ++ location ++ ": Service '" ++ name ++ "' not found.")))

/-- `Host::ValidateServiceDictionary`: the outcome, and the compiler context
after the call. -/
def Host.ValidateServiceDictionary (w : World) (context : Option ConfigCompilerContext)
    (arguments : List Value) : Except Error Unit × Option ConfigCompilerContext :=
  match arguments with
  | [] => (.error (.invalid_argument "Missing argument: Location must be specified."), context)
  | [_] =>
    (.error (.invalid_argument "Missing argument: Attribute dictionary must be specified."),
      context)
  | a0 :: a1 :: _ =>
    match a0.toStr with
    | .error e => (.error e, context)
    | .ok location =>
      match a1.toDictionary with
      | .error e => (.error e, context)
      | .ok none => (.error .null_dereference, context)
      | .ok (some attrs) => Host.ValidateServiceDictionary.loop w location attrs context

/-- The value of the last expression of a list that sets `key` with
`OperatorSet`, `none` when no expression does. -/
def lastSet : List Expression → String → Option Value
  | [], _ => none
  | e :: rest, key =>
    match lastSet rest key with
    | some v => some v
    | none => if e.key = key ∧ e.op = .OperatorSet then some e.value else none

/-- The precedence in words, for a key that the copy rules set: the value of
the entry, when the entry is a dictionary that gives one; else the value of the
owner, when it is not blank; else the fixed default, which exists for
`short_name` only and is the name the entry is processed under. -/
def expectedLastSet (owner : Dictionary) (svcname : String) (entry : Value) (key : String) :
    Option Value :=
  let fromEntry : Value :=
    match entry with
    | .Mapping service => Dictionary.Get service key
    | _ => .Empty
  if fromEntry.IsEmpty = false then some fromEntry
  else if (Dictionary.Get owner key).IsEmpty = false then some (Dictionary.Get owner key)
  else if key = "short_name" then some (.Scalar svcname)
  else none

/-! ## Concrete objects -/

/-- The service `A-ping` of host `A` with a hard Critical result. -/
def pingCritical : Service :=
  { name := "A-ping", host_name := "A", short_name := "ping", state := .StateCritical,
    stateType := .StateTypeHard, lastCheckResult := some [("output", .Scalar "CRITICAL")],
    currentCheckAttempt := 3, maxCheckAttempts := 3 }

/-- The service `A-ping` after its transition to hard OK. -/
def pingOK : Service :=
  { pingCritical with state := .StateOK, lastCheckResult := some [("output", .Scalar "OK")],
                      currentCheckAttempt := 1 }

/-- Host `A`, which depends on the service `A-ping`. -/
def hostA : Host :=
  { name := "A", abstract := false,
    attributes := [("servicedependencies", .Mapping [("0", .Scalar "A-ping")])],
    m_SlaveServices := none, slave_services := none, m_HostCheckService := none }

/-- A compiler that accepts every builder. -/
def acceptAll : ConfigItemBuilder → Option Error := fun _ => none

/-- The registry with host `A` and a Critical `A-ping`. -/
def worldCritical : World :=
  { hosts := [hostA], services := [pingCritical], items := [], compileFailure := acceptAll }

/-- The registry with host `A` and an OK `A-ping`. -/
def worldOK : World :=
  { hosts := [hostA], services := [pingOK], items := [], compileFailure := acceptAll }

/-- The cache at program start: empty, flag set. -/
def initialCache : ServicesCache :=
  { m_ServicesCache := [], m_ServicesCacheValid := true }

/-- Host `B` of section 8, with two service descriptions. -/
def hostB : Host :=
  { name := "B", abstract := false,
    attributes :=
      [("services", .Mapping [("http", .Mapping [("check_interval", .Scalar "60")]),
                              ("ssh", .Scalar "ssh-template")])],
    m_SlaveServices := none, slave_services := none, m_HostCheckService := none }

/-- The configuration item host `B` was committed from. -/
def itemB : ConfigItem :=
  { type := "Host", name := "B", parents := [], expressions := [], debug_info := "hosts.conf:1" }

/-- The registry with host `B` and its item. -/
def worldB : World :=
  { hosts := [hostB], services := [], items := [itemB], compileFailure := acceptAll }

/-- Host `P`, registered, with no check service. -/
def hostP : Host :=
  { name := "P", abstract := false, attributes := [],
    m_SlaveServices := none, slave_services := none, m_HostCheckService := none }

/-- The check service of host `Q`: pending, no check result yet. -/
def pendingCheck : Service :=
  { name := "Q-ping", host_name := "Q", short_name := "ping", state := .StateUnknown,
    stateType := .StateTypeHard, lastCheckResult := none,
    currentCheckAttempt := 1, maxCheckAttempts := 3 }

/-- Host `Q`, registered, with a pending check service. -/
def hostQ : Host :=
  { name := "Q", abstract := false, attributes := [],
    m_SlaveServices := none, slave_services := none, m_HostCheckService := some pendingCheck }

/-- A host `E` with the given host dependencies and nothing else. -/
def hostE (dependencies : Dictionary) : Host :=
  { name := "E", abstract := false,
    attributes := [("hostdependencies", .Mapping dependencies)],
    m_SlaveServices := none, slave_services := none, m_HostCheckService := none }

/-- The registry with the hosts `P` and `Q` and the service `Q-ping`. -/
def worldPQ : World :=
  { hosts := [hostP, hostQ], services := [pendingCheck], items := [],
    compileFailure := acceptAll }

/-- Host `F`, whose only dependency is its own name. -/
def hostF : Host :=
  { name := "F", abstract := false,
    attributes := [("hostdependencies", .Mapping [("0", .Scalar "F")])],
    m_SlaveServices := none, slave_services := none, m_HostCheckService := none }

/-- The registry with host `F` only. -/
def worldF : World :=
  { hosts := [hostF], services := [], items := [], compileFailure := acceptAll }

/-- The service `A-ping` before its first check result. -/
def pingPending : Service :=
  { pingCritical with state := .StateUnknown, lastCheckResult := none, currentCheckAttempt := 1 }

/-- The registry with host `A` and a pending `A-ping`. -/
def worldPending : World :=
  { hosts := [hostA], services := [pingPending], items := [], compileFailure := acceptAll }

/-- Host `G`, with a `groups`, a `servicegroups` and a `hostdependencies`
attribute, a scalar service description and a dictionary one. -/
def hostG : Host :=
  { name := "G", abstract := false,
    attributes :=
      [("groups", .Mapping [("0", .Scalar "linux")]),
       ("hostdependencies", .Mapping [("0", .Scalar "router")]),
       ("servicegroups", .Mapping [("0", .Scalar "web")]),
       ("services", .Mapping [("0", .Scalar "ping"), ("web", .Mapping [])])],
    m_SlaveServices := none, slave_services := none, m_HostCheckService := none }

/-- The registry with host `G` and the item it was committed from. -/
def worldG : World :=
  { hosts := [hostG], services := [],
    items := [{ type := "Host", name := "G", parents := [], expressions := [],
                debug_info := "hosts.conf:9" }],
    compileFailure := acceptAll }

/-- Host `B` after its first reconciliation, with the `ssh` entry taken out of
its `services` attribute. -/
def hostB2 : Host :=
  { (Host.UpdateSlaveServices worldB hostB).self with
    attributes :=
      [("services", .Mapping [("http", .Mapping [("check_interval", .Scalar "60")])])] }

/-- An abstract host with the service descriptions of host `B`. -/
def hostTemplate : Host :=
  { hostB with abstract := true }

/-- Host `H`: a valid service description, then one that is neither a scalar
nor a dictionary, then a valid one. -/
def hostH : Host :=
  { name := "H", abstract := false,
    attributes :=
      [("services", .Mapping [("a", .Scalar "ping"), ("b", .Object "0x7f"),
                              ("c", .Scalar "ssh")])],
    m_SlaveServices := none, slave_services := none, m_HostCheckService := none }

/-- The registry with host `H` and the item it was committed from. -/
def worldH : World :=
  { hosts := [hostH], services := [],
    items := [{ type := "Host", name := "H", parents := [], expressions := [],
                debug_info := "hosts.conf:20" }],
    compileFailure := acceptAll }

/-- Host `N`, with no dependencies, and a check service that is Critical. -/
def hostN : Host :=
  { name := "N", abstract := false,
    attributes := [("hostdependencies", .Mapping [])],
    m_SlaveServices := none, slave_services := none,
    m_HostCheckService := some { pingCritical with name := "N-ping", host_name := "N" } }

/-- Two services of host `B` with the short name `ping`. -/
def pingFirst : Service :=
  { name := "B-ping", host_name := "B", short_name := "ping", state := .StateOK,
    stateType := .StateTypeHard, lastCheckResult := none,
    currentCheckAttempt := 1, maxCheckAttempts := 3 }

/-- The second service of host `B` with the short name `ping`. -/
def pingSecond : Service :=
  { pingFirst with name := "B-ping-alt" }

/-- A service of host `A` in the same registry. -/
def otherHostService : Service :=
  { pingFirst with name := "A-ssh", host_name := "A", short_name := "ssh" }

/-- The registry with host `B` and the three services. -/
def worldDuplicate : World :=
  { hosts := [hostB], services := [pingFirst, otherHostService, pingSecond], items := [itemB],
    compileFailure := acceptAll }

/-- A cache whose flag is set and whose entry for host `A` under `ping` has
expired. -/
def expiredCache : ServicesCache :=
  { m_ServicesCache := [("A", [("ping", none)])], m_ServicesCacheValid := true }

/-- Static functions of `Service` for the examples. -/
def exampleStatics : ServiceStatics :=
  { StateTypeToString := fun t =>
      match t with
      | .StateTypeSoft => "SOFT"
      | .StateTypeHard => "HARD",
    CalculateLatency := fun _ => .Scalar "0",
    CalculateExecutionTime := fun _ => .Scalar "0" }

/-- A compiler context with no items and no errors that does not link existing
items. -/
def emptyContext : ConfigCompilerContext :=
  { items := [], linkExisting := false, errors := [] }

/-- The arguments of a validation: a location and a dictionary whose only entry
names the service `nosuch`. -/
def validationArguments : List Value :=
  [.Scalar "hosts.conf:3", .Mapping [("0", .Scalar "nosuch")]]

/-- Host `core`, with no check service. -/
def hostCore : Host :=
  { name := "core", abstract := false, attributes := [],
    m_SlaveServices := none, slave_services := none, m_HostCheckService := none }

/-- The check service of host `gw`, hard OK. -/
def gwCheck : Service :=
  { pingOK with name := "gw-ping", host_name := "gw" }

/-- Host `gw` with an OK check service, depending on host `core`. -/
def hostGwChained : Host :=
  { name := "gw", abstract := false,
    attributes := [("hostdependencies", .Mapping [("0", .Scalar "core")])],
    m_SlaveServices := none, slave_services := none, m_HostCheckService := some gwCheck }

/-- Host `gw` with an OK check service and no dependency. -/
def hostGwFlat : Host :=
  { hostGwChained with attributes := [] }

/-- Host `leaf`, depending on host `gw`. -/
def hostLeaf : Host :=
  { name := "leaf", abstract := false,
    attributes := [("hostdependencies", .Mapping [("0", .Scalar "gw")])],
    m_SlaveServices := none, slave_services := none, m_HostCheckService := none }

/-- The registry in which `gw` depends on `core`. -/
def worldChain : World :=
  { hosts := [hostCore, hostGwChained, hostLeaf], services := [gwCheck], items := [],
    compileFailure := acceptAll }

/-- The registry in which `gw` has no dependency. -/
def worldFlat : World :=
  { hosts := [hostCore, hostGwFlat, hostLeaf], services := [gwCheck], items := [],
    compileFailure := acceptAll }

/-- A host `O` with no service dependency and the given host dependencies. -/
def hostO (dependencies : Dictionary) : Host :=
  { name := "O", abstract := false,
    attributes :=
      [("hostdependencies", .Mapping dependencies), ("servicedependencies", .Mapping [])],
    m_SlaveServices := none, slave_services := none, m_HostCheckService := none }

/-- Host `L`, with a `check_interval` of its own, a dictionary service
description that gives a `check_interval`, and a scalar one. -/
def hostL : Host :=
  { name := "L", abstract := false,
    attributes :=
      [("check_interval", .Scalar "300"),
       ("services", .Mapping [("0", .Scalar "ping"),
                              ("http", .Mapping [("check_interval", .Scalar "60")])])],
    m_SlaveServices := none, slave_services := none, m_HostCheckService := none }

/-- The registry with host `L` and the item it was committed from. -/
def worldL : World :=
  { hosts := [hostL], services := [],
    items := [{ type := "Host", name := "L", parents := [], expressions := [],
                debug_info := "hosts.conf:30" }],
    compileFailure := acceptAll }

/-! ## Reachability: the two loops -/

theorem serviceLoop_eq_false_iff (ps : List Service) :
    Host.IsReachable.serviceLoop ps = false ↔
      ∃ s ∈ ps, s.lastCheckResult ≠ none ∧ s.stateType = .StateTypeHard ∧
        s.state ≠ .StateOK ∧ s.state ≠ .StateWarning := by
  induction ps with
  | nil => simp [Host.IsReachable.serviceLoop]
  | cons s rest ih =>
    rw [Host.IsReachable.serviceLoop]
    by_cases h1 : s.lastCheckResult = none
    · simp [h1, ih]
    · have h1b : s.lastCheckResult.isNone = false := by
        cases h : s.lastCheckResult with
        | none => exact absurd h h1
        | some x => rfl
      by_cases h2 : s.stateType = .StateTypeSoft
      · simp [h1b, h2, ih]
      · have h2b : s.stateType = .StateTypeHard := by
          cases h : s.stateType with
          | StateTypeSoft => exact absurd h h2
          | StateTypeHard => rfl
        by_cases h3 : s.state = .StateOK ∨ s.state = .StateWarning
        · simp only [h1b, h2, h3, if_true, if_false, Bool.false_eq_true, ih, List.mem_cons,
            exists_eq_or_imp]
          constructor
          · intro h; exact Or.inr h
          · rintro (⟨_, _, h4, h5⟩ | h)
            · rcases h3 with h3 | h3
              · exact absurd h3 h4
              · exact absurd h3 h5
            · exact h
        · simp only [h1b, h2, h3, if_false, Bool.false_eq_true, List.mem_cons,
            exists_eq_or_imp, true_iff]
          left
          exact ⟨h1, h2b, fun h => h3 (Or.inl h), fun h => h3 (Or.inr h)⟩

theorem hostLoop_eq_false_iff (hs : List Host) :
    Host.IsReachable.hostLoop hs = false ↔
      ∃ h ∈ hs, h.GetHostCheckService = none ∨
        ∃ hc, h.GetHostCheckService = some hc ∧ hc.state ≠ .StateOK := by
  induction hs with
  | nil => simp [Host.IsReachable.hostLoop]
  | cons h rest ih =>
    rw [Host.IsReachable.hostLoop]
    cases hhc : h.GetHostCheckService with
    | none => simp [hhc]
    | some hc =>
      by_cases hst : hc.state = .StateOK
      · simp [hhc, hst, ih]
      · simp [hhc, hst]

/-! ## Resolution of a service name -/

theorem GetServiceByShortName_scalar (w : World) (self : Host) (s : String)
    (c : ServicesCache) :
    Host.GetServiceByShortName w self (.Scalar s) c =
      (match mapFind ((Host.ValidateServicesCache w c).ofHost self.name) s with
       | some (some service) => (.ok service, Host.ValidateServicesCache w c)
       | some none => (.error .assertion_failed, Host.ValidateServicesCache w c)
       | none => (Service.GetByName w s, Host.ValidateServicesCache w c)) := by
  rw [Host.GetServiceByShortName]

theorem GetServiceByShortName_mapping (w : World) (self : Host) (dict : Dictionary)
    (c : ServicesCache) :
    Host.GetServiceByShortName w self (.Mapping dict) c =
      (match (Dictionary.Get dict "host").toStr with
       | .error e => (.error e, c)
       | .ok host_name =>
         match Host.GetByName w host_name with
         | .error e => (.error e, c)
         | .ok host => Host.GetServiceByShortName w host (Dictionary.Get dict "service") c) := by
  rw [Host.GetServiceByShortName]
  rw [(Dictionary.GetSized dict "service").2.1]

theorem GetServiceByShortName_empty (w : World) (self : Host) (c : ServicesCache) :
    Host.GetServiceByShortName w self .Empty c =
      (.error (.invalid_argument "Host/Service name pair is invalid."), c) := by
  rw [Host.GetServiceByShortName] <;> intro _ h <;> cases h

theorem GetServiceByShortName_object (w : World) (self : Host) (id : String)
    (c : ServicesCache) :
    Host.GetServiceByShortName w self (.Object id) c =
      (.error (.invalid_argument "Host/Service name pair is invalid."), c) := by
  rw [Host.GetServiceByShortName] <;> intro _ h <;> cases h

/-! ## Reachability: the verdict -/

/-- C1. When the two dependency lists of the host resolve, to the services
`ps` and the hosts `hs`, `Host::IsReachable` returns `false` exactly when
(a) some service of `ps` has a completed check result, the hard state type and
a state other than OK and Warning, or (b) some host of `hs` has no check
service or a check service whose state is not OK; in every other case it
returns `true`. -/
theorem IsReachable_false_iff (w : World) (self : Host) (c : ServicesCache)
    (ps : List Service) (hs : List Host)
    (hps : (Host.GetParentServices w self c).1 = .ok ps)
    (hhs : Host.GetParentHosts w self = .ok hs) :
    (Host.IsReachable w self c = .ok false ↔
      ((∃ s ∈ ps, s.lastCheckResult ≠ none ∧ s.stateType = .StateTypeHard ∧
          s.state ≠ .StateOK ∧ s.state ≠ .StateWarning) ∨
       (∃ h ∈ hs, h.GetHostCheckService = none ∨
          ∃ hc, h.GetHostCheckService = some hc ∧ hc.state ≠ .StateOK))) ∧
    (¬ ((∃ s ∈ ps, s.lastCheckResult ≠ none ∧ s.stateType = .StateTypeHard ∧
          s.state ≠ .StateOK ∧ s.state ≠ .StateWarning) ∨
        (∃ h ∈ hs, h.GetHostCheckService = none ∨
          ∃ hc, h.GetHostCheckService = some hc ∧ hc.state ≠ .StateOK)) →
      Host.IsReachable w self c = .ok true) := by
  rw [← serviceLoop_eq_false_iff, ← hostLoop_eq_false_iff]
  unfold Host.IsReachable
  rw [hps]
  simp only [hhs]
  cases h1 : Host.IsReachable.serviceLoop ps <;>
    cases h2 : Host.IsReachable.hostLoop hs <;> simp

/-- C1, the example of section 8: host `A` depends on the service `A-ping`;
with a hard Critical result of `A-ping` the host is not reachable, with a hard
OK result it is. -/
theorem IsReachable_false_iff_witness :
    Host.IsReachable worldCritical hostA initialCache = .ok false ∧
    Host.IsReachable worldOK hostA initialCache = .ok true := by
  have hpsC : (Host.GetParentServices worldCritical hostA initialCache).1 = .ok [pingCritical] := by
    simp [Host.GetParentServices, Host.GetServiceDependencies, hostA, Dictionary.Get,
      Value.toDictionary, Host.GetParentServices.loop, GetServiceByShortName_scalar]
    decide
  have hpsO : (Host.GetParentServices worldOK hostA initialCache).1 = .ok [pingOK] := by
    simp [Host.GetParentServices, Host.GetServiceDependencies, hostA, Dictionary.Get,
      Value.toDictionary, Host.GetParentServices.loop, GetServiceByShortName_scalar]
    decide
  have hhsC : Host.GetParentHosts worldCritical hostA = .ok [] := by decide
  have hhsO : Host.GetParentHosts worldOK hostA = .ok [] := by decide
  constructor
  · exact (IsReachable_false_iff worldCritical hostA initialCache [pingCritical] [] hpsC hhsC).1.mpr
      (Or.inl ⟨pingCritical, by simp, by decide⟩)
  · exact (IsReachable_false_iff worldOK hostA initialCache [pingOK] [] hpsO hhsO).2
      (by
        rintro (⟨s, hs, h⟩ | ⟨h, hh, _⟩)
        · simp at hs
          subst hs
          exact h.2.2.1 rfl
        · simp at hh)

theorem ValidateServicesCache_idem (w : World) (c : ServicesCache) :
    Host.ValidateServicesCache w (Host.ValidateServicesCache w c) =
      Host.ValidateServicesCache w c := by
  unfold Host.ValidateServicesCache
  by_cases h : c.m_ServicesCacheValid <;> simp [h]

theorem GetServiceByShortName_invalid (w : World) (self : Host) (name : Value)
    (c : ServicesCache) (h1 : ∀ s, name ≠ .Scalar s) (h2 : ∀ d, name ≠ .Mapping d) :
    Host.GetServiceByShortName w self name c =
      (.error (.invalid_argument "Host/Service name pair is invalid."), c) := by
  cases name with
  | Empty => exact GetServiceByShortName_empty w self c
  | Scalar s => exact absurd rfl (h1 s)
  | Mapping d => exact absurd rfl (h2 d)
  | Object id => exact GetServiceByShortName_object w self id c

/-- The host a name is resolved for matters by its name only. -/
theorem GetServiceByShortName_congr_name (w : World) (self self2 : Host) (name : Value)
    (c : ServicesCache) (h : self2.name = self.name) :
    Host.GetServiceByShortName w self2 name c = Host.GetServiceByShortName w self name c := by
  cases name with
  | Empty => rw [GetServiceByShortName_empty, GetServiceByShortName_empty]
  | Scalar s => rw [GetServiceByShortName_scalar, GetServiceByShortName_scalar, h]
  | Mapping d => rw [GetServiceByShortName_mapping, GetServiceByShortName_mapping]
  | Object id => rw [GetServiceByShortName_object, GetServiceByShortName_object]

/-- The result of a resolution is the same from the validated cache, and a
resolution that succeeds leaves the validated cache. -/
theorem GetServiceByShortName_validated (w : World) (self : Host) (name : Value)
    (c : ServicesCache) :
    (Host.GetServiceByShortName w self name (Host.ValidateServicesCache w c)).1 =
        (Host.GetServiceByShortName w self name c).1 ∧
      ∀ s, (Host.GetServiceByShortName w self name c).1 = .ok s →
        (Host.GetServiceByShortName w self name c).2 = Host.ValidateServicesCache w c := by
  refine Host.GetServiceByShortName.induct w
    (fun self name c =>
      (Host.GetServiceByShortName w self name (Host.ValidateServicesCache w c)).1 =
          (Host.GetServiceByShortName w self name c).1 ∧
        ∀ s, (Host.GetServiceByShortName w self name c).1 = .ok s →
          (Host.GetServiceByShortName w self name c).2 = Host.ValidateServicesCache w c)
    ?_ ?_ ?_ ?_ ?_ ?_ ?_ self name c
  · intro self c s c1 service hfind
    simp only [GetServiceByShortName_scalar, ValidateServicesCache_idem]
    simp only [c1] at hfind
    simp [hfind]
  · intro self c s c1 hfind
    simp only [GetServiceByShortName_scalar, ValidateServicesCache_idem]
    simp only [c1] at hfind
    simp [hfind]
  · intro self c s c1 hfind
    simp only [GetServiceByShortName_scalar, ValidateServicesCache_idem]
    simp only [c1] at hfind
    simp [hfind]
  · intro self c dict e he
    simp only [GetServiceByShortName_mapping, he]
    simp
  · intro self c dict host_name hn e he
    simp only [GetServiceByShortName_mapping, hn, he]
    simp
  · intro self c dict host_name hn host hh ih
    rw [(Dictionary.GetSized dict "service").2.1] at ih
    simp only [GetServiceByShortName_mapping, hn, hh]
    exact ih
  · intro self name c h1 h2
    rw [GetServiceByShortName_invalid w self name c (fun s h => h1 s h) (fun d h => h2 d h),
      GetServiceByShortName_invalid w self name _ (fun s h => h1 s h) (fun d h => h2 d h)]
    simp

/-- The loop of `Host::GetParentServices` with a resolution that does not
touch the cache. -/
theorem GetParentServices_loop_eq (w : World) (self : Host) (c : ServicesCache)
    (d : List (String × Value)) (parents : List Service) :
    (Host.GetParentServices.loop w self d parents c).1 =
      Host.resolveServices (fun v => (Host.GetServiceByShortName w self v c).1) d parents := by
  induction d generalizing parents c with
  | nil => rfl
  | cons e rest ih =>
    obtain ⟨k, v⟩ := e
    rw [Host.GetParentServices.loop, Host.resolveServices]
    have hv := GetServiceByShortName_validated w self v c
    cases hr : Host.GetServiceByShortName w self v c with
    | mk r c1 =>
      cases r with
      | error e => simp
      | ok s =>
        have hc1 : c1 = Host.ValidateServicesCache w c := by
          have := hv.2 s (by rw [hr])
          rw [hr] at this
          exact this
        simp only []
        rw [ih, hc1]
        congr 1
        funext v2
        exact (GetServiceByShortName_validated w self v2 c).1

theorem IsReachable_eq_combine (w : World) (self : Host) (c : ServicesCache) :
    Host.IsReachable w self c =
      Host.IsReachable.combine
        ((Host.GetParentServices w self c).1.map Host.IsReachable.serviceLoop)
        ((Host.GetParentHosts w self).map Host.IsReachable.hostLoop) := by
  unfold Host.IsReachable Host.IsReachable.combine
  cases (Host.GetParentServices w self c).1 with
  | error e => rfl
  | ok ps =>
    simp only [Except.map]
    cases h1 : Host.IsReachable.serviceLoop ps with
    | false => simp
    | true =>
      simp only [Bool.true_eq_false, if_false]
      cases Host.GetParentHosts w self with
      | error e => rfl
      | ok hs =>
        simp only [Except.map]
        cases h2 : Host.IsReachable.hostLoop hs <;> simp

theorem serviceLoop_append (ps qs : List Service) :
    Host.IsReachable.serviceLoop (ps ++ qs) =
      (Host.IsReachable.serviceLoop ps && Host.IsReachable.serviceLoop qs) := by
  induction ps with
  | nil => simp [Host.IsReachable.serviceLoop]
  | cons s rest ih =>
    simp only [List.cons_append, Host.IsReachable.serviceLoop]
    split_ifs <;> simp [ih]

theorem serviceLoop_of_mem (ps : List Service) (s : Service) (hs : s ∈ ps)
    (h : Host.IsReachable.serviceLoop ps = true) : Host.IsReachable.serviceLoop [s] = true := by
  induction ps with
  | nil => simp at hs
  | cons p rest ih =>
    rw [show p :: rest = [p] ++ rest from rfl, serviceLoop_append, Bool.and_eq_true] at h
    rcases List.mem_cons.mp hs with h1 | h1
    · rw [h1]; exact h.1
    · exact ih h1 h.2

theorem serviceLoop_insert (ps : List Service) (s : Service) :
    Host.IsReachable.serviceLoop (insertService ps s) =
      (Host.IsReachable.serviceLoop ps && Host.IsReachable.serviceLoop [s]) := by
  unfold insertService
  by_cases hmem : s ∈ ps
  · simp only [hmem, if_true]
    cases h : Host.IsReachable.serviceLoop ps with
    | false => simp
    | true => simp [serviceLoop_of_mem ps s hmem h]
  · simp only [hmem, if_false, serviceLoop_append]

theorem resolveServices_append (r : Value → Except Error Service)
    (d1 d2 : List (String × Value)) (parents : List Service) :
    Host.resolveServices r (d1 ++ d2) parents =
      (match Host.resolveServices r d1 parents with
       | .error e => .error e
       | .ok ps => Host.resolveServices r d2 ps) := by
  induction d1 generalizing parents with
  | nil => rfl
  | cons e rest ih =>
    obtain ⟨k, v⟩ := e
    simp only [List.cons_append, Host.resolveServices]
    cases r v with
    | error e => rfl
    | ok s => exact ih _

/-- The outcome of the first loop depends on the set the resolution starts
from only through the outcome of the loop on that set. -/
theorem resolveServices_serviceLoop (r : Value → Except Error Service)
    (d : List (String × Value)) (p q : List Service)
    (h : Host.IsReachable.serviceLoop p = Host.IsReachable.serviceLoop q) :
    (Host.resolveServices r d p).map Host.IsReachable.serviceLoop =
      (Host.resolveServices r d q).map Host.IsReachable.serviceLoop := by
  induction d generalizing p q with
  | nil => simp [Host.resolveServices, Except.map, h]
  | cons e rest ih =>
    obtain ⟨k, v⟩ := e
    simp only [Host.resolveServices]
    cases r v with
    | error e => rfl
    | ok s =>
      apply ih
      rw [serviceLoop_insert, serviceLoop_insert, h]

theorem resolveServices_ok_all (r : Value → Except Error Service)
    (d : List (String × Value)) (p ps : List Service)
    (h : Host.resolveServices r d p = .ok ps) :
    ∀ e ∈ d, ∃ s, r e.2 = .ok s := by
  induction d generalizing p with
  | nil => simp
  | cons e rest ih =>
    obtain ⟨k, v⟩ := e
    simp only [Host.resolveServices] at h
    cases hr : r v with
    | error e => rw [hr] at h; cases h
    | ok s =>
      rw [hr] at h
      intro e he
      rcases List.mem_cons.mp he with h1 | h1
      · rw [h1]; exact ⟨s, hr⟩
      · exact ih _ h e h1

theorem GetParentServices_of_mapping (w : World) (self : Host) (c : ServicesCache)
    (d : List (String × Value))
    (hd : Dictionary.Get self.attributes "servicedependencies" = .Mapping d) :
    (Host.GetParentServices w self c).1 =
      Host.resolveServices (fun v => (Host.GetServiceByShortName w self v c).1) d [] := by
  unfold Host.GetParentServices Host.GetServiceDependencies
  rw [hd]
  simp only [Value.toDictionary]
  exact GetParentServices_loop_eq w self c d []

theorem GetParentHosts_loop_congr (w : World) (self self2 : Host) (h : self2.name = self.name)
    (d : List (String × Value)) (parents : List Host) :
    Host.GetParentHosts.loop w self2 d parents = Host.GetParentHosts.loop w self d parents := by
  induction d generalizing parents with
  | nil => rfl
  | cons e rest ih =>
    obtain ⟨k, v⟩ := e
    simp only [Host.GetParentHosts.loop, h, ih]

theorem GetParentHosts_congr (w : World) (self self2 : Host) (h : self2.name = self.name)
    (hd : Dictionary.Get self2.attributes "hostdependencies" =
      Dictionary.Get self.attributes "hostdependencies") :
    Host.GetParentHosts w self2 = Host.GetParentHosts w self := by
  unfold Host.GetParentHosts Host.GetHostDependencies
  rw [hd]
  cases (Dictionary.Get self.attributes "hostdependencies").toDictionary with
  | error e => rfl
  | ok o =>
    cases o with
    | none => rfl
    | some d => exact GetParentHosts_loop_congr w self self2 h d []

/-! ## Reachability: what raises -/

theorem GetParentHosts_loop_ok_all (w : World) (self : Host) (d : List (String × Value))
    (p hs : List Host) (h : Host.GetParentHosts.loop w self d p = .ok hs) :
    ∀ e ∈ d, ∃ n, e.2.toStr = .ok n ∧ (n = self.name ∨ ∃ host, Host.GetByName w n = .ok host) := by
  induction d generalizing p with
  | nil => simp
  | cons e rest ih =>
    obtain ⟨k, v⟩ := e
    simp only [Host.GetParentHosts.loop] at h
    cases hv : v.toStr with
    | error e => rw [hv] at h; cases h
    | ok n =>
      rw [hv] at h
      simp only [] at h
      intro e he
      by_cases hn : n = self.name
      · rw [if_pos hn] at h
        rcases List.mem_cons.mp he with h1 | h1
        · rw [h1]; exact ⟨n, hv, Or.inl hn⟩
        · exact ih _ h e h1
      · rw [if_neg hn] at h
        cases hg : Host.GetByName w n with
        | error e => rw [hg] at h; cases h
        | ok host =>
          rw [hg] at h
          rcases List.mem_cons.mp he with h1 | h1
          · rw [h1]; exact ⟨n, hv, Or.inr ⟨host, hg⟩⟩
          · exact ih _ h e h1

/-- C9, counterexample. A parent host with no check service is not ignored:
host `E` depending on `P` is unreachable, while `E` without the dependency is
reachable; the same holds for the parent host `Q`, whose check service is
pending. -/
theorem IsReachable_parent_host_not_ignored :
    Host.IsReachable worldPQ (hostE [("0", .Scalar "P")]) initialCache = .ok false ∧
    Host.IsReachable worldPQ (hostE [("0", .Scalar "Q")]) initialCache = .ok false ∧
    Host.IsReachable worldPQ (hostE []) initialCache = .ok true := by
  refine ⟨?_, ?_, ?_⟩ <;> decide

/-- C9, amended. A parent service with no completed check result is ignored:
the verdict is the one of the host without that entry of `servicedependencies`.
A parent host is not ignored: when no parent service is disqualifying, a parent
host with no check service, or with a check service whose state is not OK,
makes the host unreachable. -/
theorem IsReachable_ignores_pending_service (w : World) (self : Host) (c : ServicesCache) :
    (∀ (self2 : Host) d1 d2 k v s, self2.name = self.name →
      Dictionary.Get self2.attributes "hostdependencies" =
        Dictionary.Get self.attributes "hostdependencies" →
      Dictionary.Get self.attributes "servicedependencies" = .Mapping (d1 ++ (k, v) :: d2) →
      Dictionary.Get self2.attributes "servicedependencies" = .Mapping (d1 ++ d2) →
      (Host.GetServiceByShortName w self v c).1 = .ok s → s.lastCheckResult = none →
      Host.IsReachable w self c = Host.IsReachable w self2 c) ∧
    (∀ ps hs h, (Host.GetParentServices w self c).1 = .ok ps →
      Host.IsReachable.serviceLoop ps = true →
      Host.GetParentHosts w self = .ok hs → h ∈ hs →
      (h.GetHostCheckService = none ∨
        ∃ hc, h.GetHostCheckService = some hc ∧ hc.state ≠ .StateOK) →
      Host.IsReachable w self c = .ok false) := by
  constructor
  · intro self2 d1 d2 k v s hname hhd hsd hsd2 hres hpending
    rw [IsReachable_eq_combine, IsReachable_eq_combine, GetParentHosts_congr w self self2 hname hhd,
      GetParentServices_of_mapping w self c _ hsd, GetParentServices_of_mapping w self2 c _ hsd2]
    have hr : (fun v => (Host.GetServiceByShortName w self2 v c).1) =
        (fun v => (Host.GetServiceByShortName w self v c).1) := by
      funext v2
      rw [GetServiceByShortName_congr_name w self self2 v2 c hname]
    rw [hr, resolveServices_append, resolveServices_append]
    congr 1
    cases Host.resolveServices (fun v => (Host.GetServiceByShortName w self v c).1) d1 [] with
    | error e => rfl
    | ok ps1 =>
      simp only [Host.resolveServices, hres]
      apply resolveServices_serviceLoop
      rw [serviceLoop_insert]
      simp [Host.IsReachable.serviceLoop, hpending]
  · intro ps hs h hps hl hhs hmem hdown
    rw [IsReachable_eq_combine, hps, hhs]
    have : Host.IsReachable.hostLoop hs = false :=
      (hostLoop_eq_false_iff hs).mpr ⟨h, hmem, hdown⟩
    simp [Except.map, hl, this, Host.IsReachable.combine]

/-- C9, amended, at host `A` with a pending `A-ping`: the verdict is the one of
host `A` without the dependency. -/
theorem IsReachable_ignores_pending_service_witness :
    Host.IsReachable worldPending hostA initialCache =
      Host.IsReachable worldPending { hostA with attributes := [("servicedependencies", .Mapping [])] }
        initialCache :=
  (IsReachable_ignores_pending_service worldPending hostA initialCache).1
    { hostA with attributes := [("servicedependencies", .Mapping [])] }
    [] [] "0" (.Scalar "A-ping") pingPending rfl rfl rfl rfl
    (by
      simp [GetServiceByShortName_scalar]
      decide)
    rfl

/-! ## The parent hosts -/

theorem GetByName_name (w : World) (n : String) (host : Host)
    (h : Host.GetByName w n = .ok host) : host.name = n := by
  unfold Host.GetByName World.GetHostObject at h
  cases hf : List.find? (fun h => decide (h.name = n)) w.hosts with
  | none => rw [hf] at h; cases h
  | some x =>
    rw [hf] at h
    cases h
    simpa using List.find?_some hf

theorem GetParentHosts_loop_eq_resolveHosts (w : World) (self : Host)
    (d : List (String × Value)) (p : List Host) :
    Host.GetParentHosts.loop w self d p =
      Host.resolveHosts w (d.filter (fun e => decide (e.2.toStr ≠ .ok self.name))) p := by
  induction d generalizing p with
  | nil => rfl
  | cons e rest ih =>
    obtain ⟨k, v⟩ := e
    rw [Host.GetParentHosts.loop]
    cases hv : v.toStr with
    | error e =>
      rw [List.filter_cons_of_pos (by simp [hv])]
      simp [Host.resolveHosts, hv]
    | ok n =>
      by_cases hn : n = self.name
      · rw [List.filter_cons_of_neg (by simp [hv, hn])]
        simp only [hn, if_true]
        exact ih p
      · rw [List.filter_cons_of_pos (by simp [hv, hn])]
        simp only [hn, if_false, Host.resolveHosts, hv]
        cases Host.GetByName w n with
        | error e => rfl
        | ok host => exact ih _

theorem GetParentHosts_loop_ne_self (w : World) (self : Host) (d : List (String × Value))
    (p hs : List Host) (h : Host.GetParentHosts.loop w self d p = .ok hs)
    (hp : ∀ x ∈ p, x.name ≠ self.name) : ∀ x ∈ hs, x.name ≠ self.name := by
  induction d generalizing p with
  | nil =>
    simp only [Host.GetParentHosts.loop] at h
    cases h
    exact hp
  | cons e rest ih =>
    obtain ⟨k, v⟩ := e
    simp only [Host.GetParentHosts.loop] at h
    cases hv : v.toStr with
    | error e => rw [hv] at h; cases h
    | ok n =>
      rw [hv] at h
      simp only [] at h
      by_cases hn : n = self.name
      · rw [if_pos hn] at h
        exact ih p h hp
      · rw [if_neg hn] at h
        cases hg : Host.GetByName w n with
        | error e => rw [hg] at h; cases h
        | ok host =>
          rw [hg] at h
          refine ih _ h ?_
          intro x hx
          unfold insertHost at hx
          split_ifs at hx
          · exact hp x hx
          · rcases List.mem_append.mp hx with h1 | h1
            · exact hp x h1
            · simp only [List.mem_singleton] at h1
              rw [h1, GetByName_name w n host hg]
              exact hn

/-- C10. `Host::GetParentHosts` leaves out every entry of `hostdependencies`
whose value is the host's own name: the result is the set of hosts resolved
from the other entries, and it never holds a host of that name. A host whose
only dependency is its own name is reachable. -/
theorem GetParentHosts_drops_self (w : World) (self : Host) (c : ServicesCache) :
    (∀ d, Dictionary.Get self.attributes "hostdependencies" = .Mapping d →
      Host.GetParentHosts w self =
        Host.resolveHosts w (d.filter (fun e => decide (e.2.toStr ≠ .ok self.name))) []) ∧
    (∀ hs, Host.GetParentHosts w self = .ok hs → ∀ h ∈ hs, h.name ≠ self.name) ∧
    (∀ k, Dictionary.Get self.attributes "hostdependencies" = .Mapping [(k, .Scalar self.name)] →
      Dictionary.Get self.attributes "servicedependencies" = .Empty →
      Host.IsReachable w self c = .ok true) := by
  refine ⟨?_, ?_, ?_⟩
  · intro d hd
    unfold Host.GetParentHosts Host.GetHostDependencies
    rw [hd]
    exact GetParentHosts_loop_eq_resolveHosts w self d []
  · intro hs hhs
    unfold Host.GetParentHosts Host.GetHostDependencies at hhs
    cases hd : (Dictionary.Get self.attributes "hostdependencies").toDictionary with
    | error e => rw [hd] at hhs; cases hhs
    | ok o =>
      rw [hd] at hhs
      cases o with
      | none =>
        cases hhs
        simp
      | some d => exact GetParentHosts_loop_ne_self w self d [] hs hhs (by simp)
  · intro k hd hsd
    simp [Host.IsReachable, Host.GetParentServices, Host.GetServiceDependencies, hsd,
      Value.toDictionary, Host.GetParentHosts, Host.GetHostDependencies, hd,
      Host.GetParentHosts.loop, Value.toStr, Host.IsReachable.serviceLoop,
      Host.IsReachable.hostLoop]

/-- C10, at host `F`, whose only dependency is `F`: it is reachable. -/
theorem GetParentHosts_drops_self_witness :
    Host.IsReachable worldF hostF initialCache = .ok true :=
  (GetParentHosts_drops_self worldF hostF initialCache).2.2 "0" rfl rfl

/-! ## Reconciliation: the builder of one entry -/

theorem copy_step (d : Dictionary) (key : String) (op : ExpressionOperator)
    (b : ConfigItemBuilder) :
    (if (!(Dictionary.Get d key).IsEmpty) = true then
        b.AddExpression key op (Dictionary.Get d key) else b) =
      { b with expressions := b.expressions ++ copyRule d key op } := by
  unfold copyRule ConfigItemBuilder.AddExpression
  cases (Dictionary.Get d key).IsEmpty <;> simp

theorem CopyServiceAttributes_eq (flag : Bool) (d : Dictionary) (b : ConfigItemBuilder) :
    CopyServiceAttributes flag d b =
      { b with expressions := b.expressions ++ copiedExpressions flag d } := by
  unfold CopyServiceAttributes
  simp only [copy_step]
  cases flag <;> simp [copiedExpressions, List.append_assoc]

theorem addTemplates_ok (ts : List (String × Value)) (b b2 : ConfigItemBuilder)
    (h : Host.UpdateSlaveServices.addTemplates ts b = .ok b2) :
    ∃ ps, List.Forall₂ (fun t p => t.2.toStr = .ok p) ts ps ∧
      b2 = { b with parents := b.parents ++ ps } := by
  induction ts generalizing b with
  | nil =>
    simp only [Host.UpdateSlaveServices.addTemplates] at h
    cases h
    exact ⟨[], List.Forall₂.nil, by simp⟩
  | cons t rest ih =>
    obtain ⟨k, v⟩ := t
    simp only [Host.UpdateSlaveServices.addTemplates] at h
    cases hv : v.toStr with
    | error e => rw [hv] at h; cases h
    | ok p =>
      rw [hv] at h
      obtain ⟨ps, hps, hb⟩ := ih _ h
      refine ⟨p :: ps, List.Forall₂.cons hv hps, ?_⟩
      rw [hb]
      simp [ConfigItemBuilder.AddParent]

/-- What the builder of one entry holds. -/
theorem entryBuilder_ok (self : Host) (dbg k : String) (v : Value) (b : ConfigItemBuilder) :
    Host.UpdateSlaveServices.entryBuilder self dbg k v = .ok b →
    b.debug_info = dbg ∧ b.type = "Service" ∧
    b.name = self.name ++ "-" ++ (match v with | .Scalar s => s | _ => k) ∧
    b.expressions =
      [{ key := "host_name", op := .OperatorSet, value := .Scalar self.name },
       { key := "display_name", op := .OperatorSet,
         value := .Scalar (match v with | .Scalar s => s | _ => k) },
       { key := "short_name", op := .OperatorSet,
         value := .Scalar (match v with | .Scalar s => s | _ => k) }] ++
      copiedExpressions false self.attributes ++
      (match v with | .Mapping service => copiedExpressions true service | _ => []) ∧
    (match v with
     | .Scalar s => b.parents = [s]
     | .Mapping service =>
       match Dictionary.Get service "templates" with
       | .Mapping ts => List.Forall₂ (fun t p => t.2.toStr = .ok p) ts b.parents
       | _ => b.parents = [k]
     | _ => False) := by
  intro h
  cases v with
  | Empty => simp [Host.UpdateSlaveServices.entryBuilder] at h
  | Object id => simp [Host.UpdateSlaveServices.entryBuilder] at h
  | Scalar s =>
    simp only [Host.UpdateSlaveServices.entryBuilder, Host.UpdateSlaveServices.svcname,
      CopyServiceAttributes_eq, ConfigItemBuilder.AddExpression, ConfigItemBuilder.AddParent,
      Except.ok.injEq] at h
    subst h
    simp
  | Mapping service =>
    simp only [Host.UpdateSlaveServices.entryBuilder, Host.UpdateSlaveServices.svcname,
      CopyServiceAttributes_eq, ConfigItemBuilder.AddExpression, ConfigItemBuilder.AddParent] at h
    cases ht : Dictionary.Get service "templates" with
    | Empty =>
      rw [ht] at h
      simp only [Value.toDictionary, Except.ok.injEq] at h
      subst h
      simp [ht]
    | Scalar s => rw [ht] at h; simp [Value.toDictionary] at h
    | Object id => rw [ht] at h; simp [Value.toDictionary] at h
    | Mapping ts =>
      rw [ht] at h
      simp only [Value.toDictionary] at h
      cases ha : Host.UpdateSlaveServices.addTemplates ts
          { debug_info := dbg, type := "Service", name := self.name ++ "-" ++ k, parents := [],
            expressions :=
              (([] ++ [{ key := "host_name", op := .OperatorSet, value := .Scalar self.name }]) ++
                [{ key := "display_name", op := .OperatorSet, value := .Scalar k }]) ++
                [{ key := "short_name", op := .OperatorSet, value := .Scalar k }] ++
                copiedExpressions false self.attributes } with
      | error e => rw [ha] at h; cases h
      | ok b2 =>
        rw [ha] at h
        simp only [Except.ok.injEq] at h
        obtain ⟨ps, hps, hb2⟩ := addTemplates_ok ts _ b2 ha
        subst h
        subst hb2
        simpa [ht] using hps

theorem Compile_ok (f : ConfigItemBuilder → Option Error) (b : ConfigItemBuilder)
    (i : ConfigItem) (h : b.Compile f = .ok i) :
    i = { type := b.type, name := b.name, parents := b.parents,
          expressions := b.expressions, debug_info := b.debug_info } := by
  unfold ConfigItemBuilder.Compile at h
  cases hf : f b with
  | some e => rw [hf] at h; cases h
  | none =>
    rw [hf] at h
    cases h
    rfl

theorem entryItem_ok (w : World) (self : Host) (dbg : String) (e : String × Value)
    (i : ConfigItem) (h : Host.UpdateSlaveServices.entryItem w self dbg e = .ok i) :
    ∃ b, Host.UpdateSlaveServices.entryBuilder self dbg e.1 e.2 = .ok b ∧
      i.type = b.type ∧ i.name = b.name ∧ i.parents = b.parents ∧
      i.expressions = b.expressions ∧ i.debug_info = b.debug_info := by
  unfold Host.UpdateSlaveServices.entryItem at h
  cases hb : Host.UpdateSlaveServices.entryBuilder self dbg e.1 e.2 with
  | error err => rw [hb] at h; cases h
  | ok b =>
    rw [hb] at h
    have := Compile_ok _ b i h
    subst this
    exact ⟨b, rfl, rfl, rfl, rfl, rfl, rfl⟩

/-! ## Reconciliation: the loops -/

/-- The new dictionary after the items `items` have been stored in it. -/
theorem loop_ok (w : World) (self : Host) (dbg : String) (d : List (String × Value))
    (ns ns2 : List (String × Option ConfigItem)) (cm cm2 : List ConfigItem)
    (h : Host.UpdateSlaveServices.loop w self dbg d ns cm = (.ok ns2, cm2)) :
    ∃ items, List.Forall₂ (fun e i => Host.UpdateSlaveServices.entryItem w self dbg e = .ok i)
        d items ∧ cm2 = cm ++ items ∧
      ns2 = items.foldl (fun acc i => mapSet acc i.name (some i)) ns := by
  induction d generalizing ns cm with
  | nil =>
    simp only [Host.UpdateSlaveServices.loop, Prod.mk.injEq, Except.ok.injEq] at h
    exact ⟨[], List.Forall₂.nil, by simp [h.2], by simp [h.1]⟩
  | cons e rest ih =>
    obtain ⟨k, v⟩ := e
    simp only [Host.UpdateSlaveServices.loop] at h
    cases hb : Host.UpdateSlaveServices.entryBuilder self dbg k v with
    | error err => rw [hb] at h; simp at h
    | ok b =>
      rw [hb] at h
      simp only [] at h
      cases hc : b.Compile w.compileFailure with
      | error err => rw [hc] at h; simp at h
      | ok item =>
        rw [hc] at h
        simp only [] at h
        obtain ⟨items, hall, hcm, hns⟩ := ih _ _ h
        have hname : item.name = b.name := by rw [Compile_ok _ b item hc]
        refine ⟨item :: items, List.Forall₂.cons ?_ hall, ?_, ?_⟩
        · simp [Host.UpdateSlaveServices.entryItem, hb, hc]
        · simp [hcm]
        · simp [hns, hname]

/-- The loop stops at the first entry that does not build; what was committed
for the entries before it stays. -/
theorem loop_error (w : World) (self : Host) (dbg : String)
    (pre post : List (String × Value)) (e : String × Value) (err : Error)
    (items : List ConfigItem)
    (hpre : List.Forall₂ (fun e i => Host.UpdateSlaveServices.entryItem w self dbg e = .ok i)
      pre items)
    (he : Host.UpdateSlaveServices.entryItem w self dbg e = .error err)
    (ns : List (String × Option ConfigItem)) (cm : List ConfigItem) :
    Host.UpdateSlaveServices.loop w self dbg (pre ++ e :: post) ns cm =
      (.error err, cm ++ items) := by
  induction hpre generalizing ns cm with
  | nil =>
    obtain ⟨k, v⟩ := e
    simp only [List.nil_append, Host.UpdateSlaveServices.loop, List.append_nil]
    unfold Host.UpdateSlaveServices.entryItem at he
    cases hb : Host.UpdateSlaveServices.entryBuilder self dbg k v with
    | error err2 =>
      rw [hb] at he
      simp only [Except.error.injEq] at he
      simp [he]
    | ok b =>
      rw [hb] at he
      simp only [] at he
      simp [he]
  | @cons e1 i1 rest irest h1 _ ih =>
    obtain ⟨k, v⟩ := e1
    simp only [List.cons_append, Host.UpdateSlaveServices.loop]
    unfold Host.UpdateSlaveServices.entryItem at h1
    cases hb : Host.UpdateSlaveServices.entryBuilder self dbg k v with
    | error err2 => rw [hb] at h1; cases h1
    | ok b =>
      rw [hb] at h1
      simp only [] at h1
      simp only [h1]
      have h2 := ih (mapSet ns b.name (some i1)) (cm ++ [i1])
      simp only [List.append_assoc, List.singleton_append] at h2
      exact h2

/-- `Host::UpdateSlaveServices` on an owner that is not abstract and has its
item: the loop over the descriptions decides the outcome. -/
theorem UpdateSlaveServices_eq (w : World) (self : Host) (item : ConfigItem)
    (d : List (String × Value))
    (hitem : w.GetItem "Host" self.name = some item) (habs : self.abstract = false)
    (hd : Dictionary.Get self.attributes "services" = .Mapping d) :
    Host.UpdateSlaveServices w self =
      (match Host.UpdateSlaveServices.loop w self item.debug_info d [] [] with
       | (.error e, committed) =>
         { self := self, committed := committed, unregistered := [], newServices := none,
           result := .error e }
       | (.ok newServices, committed) =>
         { self := self.SetSlaveServices newServices, committed := committed,
           unregistered :=
             (match self.m_SlaveServices with
              | none => []
              | some old => Host.UpdateSlaveServices.unregisterLoop newServices old),
           newServices := some newServices, result := .ok () }) := by
  unfold Host.UpdateSlaveServices
  simp only [hitem, habs, hd, Value.toDictionary]
  rfl

theorem mapFind_mapSet {β : Type} (m : List (String × β)) (k n : String) (v : β) :
    mapFind (mapSet m k v) n = if k = n then some v else mapFind m n := by
  induction m with
  | nil => simp [mapSet, mapFind]
  | cons e rest ih =>
    obtain ⟨k1, v1⟩ := e
    simp only [mapSet]
    by_cases h1 : k1 = k
    · subst h1
      simp only [if_true, mapFind]
      by_cases h2 : k1 = n <;> simp [h2]
    · simp only [h1, if_false, mapFind, ih]
      by_cases h2 : k1 = n
      · subst h2
        simp [Ne.symm h1]
      · simp [h2]

theorem mapFind_stored (items : List ConfigItem) (ns : List (String × Option ConfigItem))
    (n : String) :
    (mapFind (items.foldl (fun acc i => mapSet acc i.name (some i)) ns) n).isSome ↔
      ((mapFind ns n).isSome ∨ n ∈ items.map (fun i => i.name)) := by
  induction items generalizing ns with
  | nil => simp
  | cons i rest ih =>
    simp only [List.foldl_cons, ih, mapFind_mapSet, List.map_cons, List.mem_cons]
    by_cases h : i.name = n
    · simp [h]
    · simp [h, Ne.symm h]

/-- A reconciliation that returns normally has committed one item for every
entry and has stored them in the new dictionary. -/
theorem UpdateSlaveServices_ok (w : World) (self : Host) (item : ConfigItem)
    (d : List (String × Value))
    (hitem : w.GetItem "Host" self.name = some item) (habs : self.abstract = false)
    (hd : Dictionary.Get self.attributes "services" = .Mapping d)
    (hres : (Host.UpdateSlaveServices w self).result = .ok ()) :
    List.Forall₂ (fun e i => Host.UpdateSlaveServices.entryItem w self item.debug_info e = .ok i)
        d (Host.UpdateSlaveServices w self).committed ∧
      (Host.UpdateSlaveServices w self).newServices =
        some ((Host.UpdateSlaveServices w self).committed.foldl
          (fun acc i => mapSet acc i.name (some i)) []) := by
  rw [UpdateSlaveServices_eq w self item d hitem habs hd] at hres ⊢
  cases hl : Host.UpdateSlaveServices.loop w self item.debug_info d [] [] with
  | mk r cm =>
    cases r with
    | error e => rw [hl] at hres; simp at hres
    | ok ns =>
      obtain ⟨items, hall, hcm, hns⟩ := loop_ok w self item.debug_info d [] ns [] cm hl
      simp only [List.nil_append] at hcm
      subst hcm
      simp only []
      exact ⟨hall, by rw [hns]⟩

theorem entryItems_names (w : World) (self : Host) (dbg : String)
    (d : List (String × Value)) (items : List ConfigItem)
    (hall : List.Forall₂ (fun e i => Host.UpdateSlaveServices.entryItem w self dbg e = .ok i)
      d items) :
    items.map (fun i => i.name) =
      d.map (fun e => self.name ++ "-" ++ (match e.2 with | .Scalar s => s | _ => e.1)) := by
  induction hall with
  | nil => rfl
  | @cons e i rest irest h1 _ ih =>
    obtain ⟨b, hb, _, hname, _⟩ := entryItem_ok w self _ e i h1
    have hbn := (entryBuilder_ok self _ e.1 e.2 b hb).2.2.1
    simp only [List.map_cons, ih, hname, hbn]

/-! ## Reconciliation: the claims -/

/-- C2, counterexample. For host `B` of section 8 the two derived services are
named `B-http` and `B-ssh-template`: the service of the scalar entry is named
after the scalar, not after the entry key `ssh`. -/
theorem UpdateSlaveServices_scalar_name :
    (Host.UpdateSlaveServices worldB hostB).result = .ok () ∧
    (Host.UpdateSlaveServices worldB hostB).committed.map (fun i => i.name) =
      ["B-http", "B-ssh-template"] ∧
    (Host.UpdateSlaveServices worldB hostB).committed.map (fun i => i.name) ≠
      ["B-http", "B-ssh"] := by
  refine ⟨?_, ?_, ?_⟩ <;> decide

/-- C2, amended. A reconciliation that returns normally commits one derived
service for every entry of the `services` dictionary, in order; its name is the
owner's name, `-` and the entry key when the entry is a dictionary, and the
owner's name, `-` and the scalar when the entry is a scalar. The names stored
in the new dictionary are these names. -/
theorem UpdateSlaveServices_names (w : World) (self : Host) (item : ConfigItem)
    (d : List (String × Value))
    (hitem : w.GetItem "Host" self.name = some item) (habs : self.abstract = false)
    (hd : Dictionary.Get self.attributes "services" = .Mapping d)
    (hres : (Host.UpdateSlaveServices w self).result = .ok ()) :
    (Host.UpdateSlaveServices w self).committed.map (fun i => i.name) =
        d.map (fun e => self.name ++ "-" ++ (match e.2 with | .Scalar s => s | _ => e.1)) ∧
      ∃ ns, (Host.UpdateSlaveServices w self).newServices = some ns ∧
        ∀ n, (mapFind ns n).isSome ↔
          n ∈ (Host.UpdateSlaveServices w self).committed.map (fun i => i.name) := by
  obtain ⟨hall, hns⟩ := UpdateSlaveServices_ok w self item d hitem habs hd hres
  constructor
  · exact entryItems_names w self _ d _ hall
  · refine ⟨_, hns, ?_⟩
    intro n
    rw [mapFind_stored]
    simp [mapFind]

/-- C2, amended, at host `G`, whose entries are the scalar `ping` under the key
`0` and a dictionary under the key `web`: the derived services are `G-ping` and
`G-web`. -/
theorem UpdateSlaveServices_names_witness :
    (Host.UpdateSlaveServices worldG hostG).committed.map (fun i => i.name) =
      ["G-ping", "G-web"] :=
  (UpdateSlaveServices_names worldG hostG
    { type := "Host", name := "G", parents := [], expressions := [], debug_info := "hosts.conf:9" }
    [("0", .Scalar "ping"), ("web", .Mapping [])] rfl rfl rfl (by decide)).1

/-- C3. For every entry of the `services` dictionary the parents of the builder
are: the scalar, for a scalar entry; the values of the entry's `templates`
dictionary, in order, for a dictionary entry that has one; the entry key, for a
dictionary entry without `templates`. The items committed by a reconciliation
that returns normally carry these parents, entry by entry. -/
theorem UpdateSlaveServices_parents (w : World) (self : Host) (item : ConfigItem)
    (d : List (String × Value))
    (hitem : w.GetItem "Host" self.name = some item) (habs : self.abstract = false)
    (hd : Dictionary.Get self.attributes "services" = .Mapping d)
    (hres : (Host.UpdateSlaveServices w self).result = .ok ()) :
    (∀ dbg k v b, Host.UpdateSlaveServices.entryBuilder self dbg k v = .ok b →
      match v with
      | .Scalar s => b.parents = [s]
      | .Mapping service =>
        (match Dictionary.Get service "templates" with
         | .Mapping ts => List.Forall₂ (fun t p => t.2.toStr = .ok p) ts b.parents
         | _ => b.parents = [k])
      | _ => False) ∧
    List.Forall₂ (fun e i =>
      match e.2 with
      | .Scalar s => i.parents = [s]
      | .Mapping service =>
        (match Dictionary.Get service "templates" with
         | .Mapping ts => List.Forall₂ (fun t p => t.2.toStr = .ok p) ts i.parents
         | _ => i.parents = [e.1])
      | _ => False) d (Host.UpdateSlaveServices w self).committed := by
  constructor
  · intro dbg k v b hb
    exact (entryBuilder_ok self dbg k v b hb).2.2.2.2
  · refine List.Forall₂.imp ?_ (UpdateSlaveServices_ok w self item d hitem habs hd hres).1
    intro e i h1
    obtain ⟨b, hb, _, _, hpar, _⟩ := entryItem_ok w self _ e i h1
    rw [hpar]
    exact (entryBuilder_ok self _ e.1 e.2 b hb).2.2.2.2

/-- C3, at host `B`: the item of the dictionary entry `http`, which has no
`templates`, has the parent `http`; the item of the scalar entry has the parent
`ssh-template`. -/
theorem UpdateSlaveServices_parents_witness :
    List.Forall₂ (fun (e : String × Value) (i : ConfigItem) =>
      match e.2 with
      | .Scalar s => i.parents = [s]
      | .Mapping service =>
        (match Dictionary.Get service "templates" with
         | .Mapping ts => List.Forall₂ (fun t p => t.2.toStr = .ok p) ts i.parents
         | _ => i.parents = [e.1])
      | _ => False)
      [("http", .Mapping [("check_interval", .Scalar "60")]), ("ssh", .Scalar "ssh-template")]
      (Host.UpdateSlaveServices worldB hostB).committed :=
  (UpdateSlaveServices_parents worldB hostB itemB _ rfl rfl rfl (by decide)).2

/-- The member `m_SlaveServices` is never written: the constructor does not
bind it to the attribute `slave_services`, which is what the reconciliation
sets. -/
theorem UpdateSlaveServices_m_SlaveServices (w : World) (self : Host) :
    (Host.UpdateSlaveServices w self).self.m_SlaveServices = self.m_SlaveServices := by
  unfold Host.UpdateSlaveServices
  cases hi : w.GetItem "Host" self.name with
  | none => simp only [hi]
  | some item =>
    cases ha : self.abstract with
    | true => simp only [hi, ha, if_true]
    | false =>
      cases hd : (Dictionary.Get self.attributes "services").toDictionary with
      | error e => simp only [hi, ha, hd, Bool.false_eq_true, if_false]
      | ok o =>
        simp only [hi, ha, hd, Bool.false_eq_true, if_false]
        split <;> rfl

/-- C4, the code at the failing input. Host `B` is reconciled, which records
`B-http` and `B-ssh-template` under `slave_services`; the `ssh` entry is taken
out and the host is reconciled again. The second reconciliation builds
`B-http` only and unregisters nothing: the set it compares with is the member
`m_SlaveServices`, which is still empty. -/
theorem UpdateSlaveServices_unregisters_nothing :
    ((Host.UpdateSlaveServices worldB hostB).self.slave_services.map
        (fun ns => ns.map (fun e => e.1))) = some ["B-http", "B-ssh-template"] ∧
    (Host.UpdateSlaveServices worldB hostB).self.m_SlaveServices = none ∧
    (Host.UpdateSlaveServices worldB hostB2).result = .ok () ∧
    ((Host.UpdateSlaveServices worldB hostB2).newServices.map
        (fun ns => ns.map (fun e => e.1))) = some ["B-http"] ∧
    (Host.UpdateSlaveServices worldB hostB2).unregistered = [] := by
  refine ⟨?_, ?_, ?_, ?_, ?_⟩ <;> decide

/-- C5. On an owner that is abstract, or that has no item in the registry,
`Host::UpdateSlaveServices` does nothing: no child is compiled or committed,
none is unregistered, and the owner is as it was. -/
theorem UpdateSlaveServices_noop (w : World) (self : Host)
    (h : self.abstract = true ∨ w.GetItem "Host" self.name = none) :
    Host.UpdateSlaveServices w self =
      { self := self, committed := [], unregistered := [], newServices := none,
        result := .ok () } := by
  unfold Host.UpdateSlaveServices
  cases hi : w.GetItem "Host" self.name with
  | none => simp only [hi]
  | some item =>
    rcases h with h | h
    · simp only [hi, h, if_true]
    · rw [hi] at h; cases h

/-- C5, at the abstract host with the service descriptions of host `B`: no
child is committed and the owner is as it was. -/
theorem UpdateSlaveServices_noop_witness :
    (Host.UpdateSlaveServices worldB hostTemplate).committed = [] ∧
    (Host.UpdateSlaveServices worldB hostTemplate).unregistered = [] ∧
    (Host.UpdateSlaveServices worldB hostTemplate).self = hostTemplate ∧
    (Host.UpdateSlaveServices worldB hostTemplate).result = .ok () := by
  rw [UpdateSlaveServices_noop worldB hostTemplate (Or.inl rfl)]
  exact ⟨rfl, rfl, rfl, rfl⟩

/-- C6. On an owner that is reconciled (not abstract, with its item), let an
entry of the `services` dictionary be neither a scalar nor a dictionary, and
let the entries before it build. Then `Host::UpdateSlaveServices` fails with
the invalid-descriptor error; the children of the entries before it have been
committed and stay so, no child is unregistered, and the owner, with its stored
set, is as it was. -/
theorem UpdateSlaveServices_invalid_descriptor (w : World) (self : Host) (item : ConfigItem)
    (pre post : List (String × Value)) (k : String) (v : Value) (items : List ConfigItem)
    (hitem : w.GetItem "Host" self.name = some item) (habs : self.abstract = false)
    (hd : Dictionary.Get self.attributes "services" = .Mapping (pre ++ (k, v) :: post))
    (hv1 : ∀ s, v ≠ .Scalar s) (hv2 : ∀ m, v ≠ .Mapping m)
    (hpre : List.Forall₂
      (fun e i => Host.UpdateSlaveServices.entryItem w self item.debug_info e = .ok i)
      pre items) :
    (Host.UpdateSlaveServices w self).result =
        .error (.invalid_argument
          "Service description must be either a string or a dictionary.") ∧
      (Host.UpdateSlaveServices w self).committed = items ∧
      (Host.UpdateSlaveServices w self).unregistered = [] ∧
      (Host.UpdateSlaveServices w self).self = self := by
  have he : Host.UpdateSlaveServices.entryItem w self item.debug_info (k, v) =
      .error (.invalid_argument
        "Service description must be either a string or a dictionary.") := by
    cases v with
    | Empty => rfl
    | Object id => rfl
    | Scalar s => exact absurd rfl (hv1 s)
    | Mapping m => exact absurd rfl (hv2 m)
  rw [UpdateSlaveServices_eq w self item _ hitem habs hd,
    loop_error w self item.debug_info pre post (k, v) _ items hpre he [] []]
  simp

/-- C6, at host `H`, whose second entry is neither a scalar nor a dictionary:
the reconciliation fails, the child of the first entry is committed, the child
of the third entry is not built. -/
theorem UpdateSlaveServices_invalid_descriptor_witness :
    (Host.UpdateSlaveServices worldH hostH).result =
        .error (.invalid_argument
          "Service description must be either a string or a dictionary.") ∧
      (Host.UpdateSlaveServices worldH hostH).committed =
        [{ type := "Service", name := "H-ping", parents := ["ping"],
           expressions :=
             [{ key := "host_name", op := .OperatorSet, value := .Scalar "H" },
              { key := "display_name", op := .OperatorSet, value := .Scalar "ping" },
              { key := "short_name", op := .OperatorSet, value := .Scalar "ping" }],
           debug_info := "hosts.conf:20" }] ∧
      (Host.UpdateSlaveServices worldH hostH).unregistered = [] ∧
      (Host.UpdateSlaveServices worldH hostH).self = hostH :=
  UpdateSlaveServices_invalid_descriptor worldH hostH
    { type := "Host", name := "H", parents := [], expressions := [],
      debug_info := "hosts.conf:20" }
    [("a", .Scalar "ping")] [("c", .Scalar "ssh")] "b" (.Object "0x7f") _ rfl rfl rfl
    (by intro s h; cases h) (by intro m h; cases h)
    (List.Forall₂.cons rfl List.Forall₂.nil)

/-- C7, counterexample. Host `G` has non-blank `groups`, `servicegroups` and
`hostdependencies` attributes, a scalar entry and a dictionary entry. The
expressions of both derived services are the three fixed ones and an append of
`servicegroups`: there is none for `groups`, and none for the
`hostdependencies` of the owner in the service of the dictionary entry. -/
theorem UpdateSlaveServices_copies_servicegroups :
    (Dictionary.Get hostG.attributes "groups").IsEmpty = false ∧
    (Dictionary.Get hostG.attributes "hostdependencies").IsEmpty = false ∧
    (Host.UpdateSlaveServices worldG hostG).committed.map
        (fun i => (i.name, i.expressions.map (fun x => (x.key, x.op)))) =
      [("G-ping", [("host_name", .OperatorSet), ("display_name", .OperatorSet),
          ("short_name", .OperatorSet), ("servicegroups", .OperatorPlus)]),
       ("G-web", [("host_name", .OperatorSet), ("display_name", .OperatorSet),
          ("short_name", .OperatorSet), ("servicegroups", .OperatorPlus)])] := by
  refine ⟨?_, ?_, ?_⟩ <;> decide

/-- C7, amended. The expressions of the builder of an entry are the three fixed
ones, then the ones copied from the owner, then, for a dictionary entry, the
ones copied from the entry. Copied from the owner are `macros` (append),
`check_interval` (set), `retry_interval` (set), `servicegroups` (append),
`checkers` (set) and `short_name` (set), each only when not blank on the owner;
from a dictionary entry the same six and `servicedependencies` and
`hostdependencies` (append), each only when not blank in the entry. The items
committed by a reconciliation that returns normally carry these expressions. -/
theorem UpdateSlaveServices_expressions (w : World) (self : Host) (item : ConfigItem)
    (d : List (String × Value))
    (hitem : w.GetItem "Host" self.name = some item) (habs : self.abstract = false)
    (hd : Dictionary.Get self.attributes "services" = .Mapping d)
    (hres : (Host.UpdateSlaveServices w self).result = .ok ()) :
    (∀ dbg k v b, Host.UpdateSlaveServices.entryBuilder self dbg k v = .ok b →
      b.expressions =
        [{ key := "host_name", op := .OperatorSet, value := .Scalar self.name },
         { key := "display_name", op := .OperatorSet,
           value := .Scalar (match v with | .Scalar s => s | _ => k) },
         { key := "short_name", op := .OperatorSet,
           value := .Scalar (match v with | .Scalar s => s | _ => k) }] ++
        copiedExpressions false self.attributes ++
        (match v with | .Mapping service => copiedExpressions true service | _ => [])) ∧
    List.Forall₂ (fun e i =>
      i.expressions =
        [{ key := "host_name", op := .OperatorSet, value := .Scalar self.name },
         { key := "display_name", op := .OperatorSet,
           value := .Scalar (match e.2 with | .Scalar s => s | _ => e.1) },
         { key := "short_name", op := .OperatorSet,
           value := .Scalar (match e.2 with | .Scalar s => s | _ => e.1) }] ++
        copiedExpressions false self.attributes ++
        (match e.2 with | .Mapping service => copiedExpressions true service | _ => []))
      d (Host.UpdateSlaveServices w self).committed := by
  constructor
  · intro dbg k v b hb
    exact (entryBuilder_ok self dbg k v b hb).2.2.2.1
  · refine List.Forall₂.imp ?_ (UpdateSlaveServices_ok w self item d hitem habs hd hres).1
    intro e i h1
    obtain ⟨b, hb, _, _, _, hex, _⟩ := entryItem_ok w self _ e i h1
    rw [hex]
    exact (entryBuilder_ok self _ e.1 e.2 b hb).2.2.2.1

/-- C7, amended, at host `B`: the item of the entry `http` carries the three
fixed expressions and the `check_interval` of the entry; the item of the scalar
entry carries the three fixed expressions only. -/
theorem UpdateSlaveServices_expressions_witness :
    (Host.UpdateSlaveServices worldB hostB).committed.map (fun i => i.expressions) =
      [[{ key := "host_name", op := .OperatorSet, value := .Scalar "B" },
        { key := "display_name", op := .OperatorSet, value := .Scalar "http" },
        { key := "short_name", op := .OperatorSet, value := .Scalar "http" },
        { key := "check_interval", op := .OperatorSet, value := .Scalar "60" }],
       [{ key := "host_name", op := .OperatorSet, value := .Scalar "B" },
        { key := "display_name", op := .OperatorSet, value := .Scalar "ssh-template" },
        { key := "short_name", op := .OperatorSet, value := .Scalar "ssh-template" }]] := by
  have h := (UpdateSlaveServices_expressions worldB hostB itemB _ rfl rfl rfl (by decide)).2
  generalize (Host.UpdateSlaveServices worldB hostB).committed = cm at h
  cases h with
  | cons h1 h2 =>
    cases h2 with
    | cons h3 h4 =>
      cases h4
      simp only [List.map_cons, List.map_nil, h1, h3]
      decide

/-! ## Reachability: no dependencies -/

/-- C11. A host whose `hostdependencies` and `servicedependencies` are both
absent or empty is reachable, whatever the registry, the cache and its own
check service are. -/
theorem IsReachable_no_dependencies (w : World) (self : Host) (c : ServicesCache)
    (hh : Dictionary.Get self.attributes "hostdependencies" = .Empty ∨
      Dictionary.Get self.attributes "hostdependencies" = .Mapping [])
    (hs : Dictionary.Get self.attributes "servicedependencies" = .Empty ∨
      Dictionary.Get self.attributes "servicedependencies" = .Mapping []) :
    Host.IsReachable w self c = .ok true := by
  rcases hh with hh | hh <;> rcases hs with hs | hs <;>
    simp [Host.IsReachable, Host.GetParentServices, Host.GetServiceDependencies, hs,
      Value.toDictionary, Host.GetParentHosts, Host.GetHostDependencies, hh,
      Host.GetParentHosts.loop, Host.GetParentServices.loop, Host.IsReachable.serviceLoop,
      Host.IsReachable.hostLoop]

/-- C11, at host `N`, whose own check service is Critical, in a registry that
holds a Critical service. -/
theorem IsReachable_no_dependencies_witness :
    Host.IsReachable worldCritical hostN (Host.InvalidateServicesCache initialCache) = .ok true :=
  IsReachable_no_dependencies worldCritical hostN _ (Or.inr rfl) (Or.inl rfl)

/-! ## The service-by-host cache: what a rebuild stores -/

theorem mapFind_mem {β : Type} (m : List (String × β)) (k : String) (v : β)
    (h : mapFind m k = some v) : (k, v) ∈ m := by
  induction m with
  | nil => simp [mapFind] at h
  | cons e rest ih =>
    obtain ⟨k1, v1⟩ := e
    simp only [mapFind] at h
    by_cases h1 : k1 = k
    · simp only [h1, if_true, Option.some.injEq] at h
      simp [h1, h]
    · simp only [h1, if_false] at h
      exact List.mem_cons_of_mem _ (ih h)

theorem mem_mapSet {β : Type} (m : List (String × β)) (k : String) (v : β)
    (e : String × β) (h : e ∈ mapSet m k v) : e = (k, v) ∨ e ∈ m := by
  induction m with
  | nil =>
    simp only [mapSet, List.mem_singleton] at h
    exact Or.inl h
  | cons e1 rest ih =>
    obtain ⟨k1, v1⟩ := e1
    simp only [mapSet] at h
    by_cases h1 : k1 = k
    · simp only [h1, if_true, List.mem_cons] at h
      rcases h with h | h
      · exact Or.inl h
      · exact Or.inr (List.mem_cons_of_mem _ h)
    · simp only [h1, if_false, List.mem_cons] at h
      rcases h with h | h
      · exact Or.inr (by rw [h]; exact List.mem_cons_self _ _)
      · rcases ih h with h2 | h2
        · exact Or.inl h2
        · exact Or.inr (List.mem_cons_of_mem _ h2)

/-- What is read under host `h` and short name `k` after the assignment
`m_ServicesCache[hn][sn] = s`. -/
theorem cacheAssign_lookup (cache : List (String × List (String × Option Service)))
    (hn sn : String) (s : Service) (h k : String) :
    mapFind ((mapFind (cacheAssign cache hn sn s) h).getD []) k =
      if hn = h ∧ sn = k then some (some s) else mapFind ((mapFind cache h).getD []) k := by
  unfold cacheAssign
  rw [mapFind_mapSet]
  by_cases h1 : hn = h
  · subst h1
    simp only [if_true, Option.getD_some, mapFind_mapSet, true_and]
  · simp [h1]

theorem rebuild_lookup_other (l : List Service)
    (init : List (String × List (String × Option Service))) (h k : String)
    (hno : ∀ s ∈ l, ¬ (s.host_name = h ∧ s.short_name = k)) :
    mapFind ((mapFind (l.foldl (fun cache s =>
        cacheAssign cache s.host_name s.short_name s) init) h).getD []) k =
      mapFind ((mapFind init h).getD []) k := by
  induction l generalizing init with
  | nil => rfl
  | cons s rest ih =>
    simp only [List.foldl_cons]
    rw [ih _ (fun t ht => hno t (List.mem_cons_of_mem _ ht)), cacheAssign_lookup]
    simp [hno s (List.mem_cons_self _ _)]

/-- After a rebuild, the slot of a host name and a short name that some
registered service has holds a registered service with that host name and short
name. -/
theorem rebuild_lookup_some (l : List Service)
    (init : List (String × List (String × Option Service))) (h k : String)
    (hex : ∃ s ∈ l, s.host_name = h ∧ s.short_name = k) :
    ∃ t ∈ l, t.host_name = h ∧ t.short_name = k ∧
      mapFind ((mapFind (l.foldl (fun cache s =>
        cacheAssign cache s.host_name s.short_name s) init) h).getD []) k = some (some t) := by
  induction l generalizing init with
  | nil => simp at hex
  | cons s rest ih =>
    simp only [List.foldl_cons]
    by_cases hrest : ∃ t ∈ rest, t.host_name = h ∧ t.short_name = k
    · obtain ⟨t, ht, h1, h2, h3⟩ := ih (cacheAssign init s.host_name s.short_name s) hrest
      exact ⟨t, List.mem_cons_of_mem _ ht, h1, h2, h3⟩
    · have hs : s.host_name = h ∧ s.short_name = k := by
        obtain ⟨t, ht, h1⟩ := hex
        rcases List.mem_cons.mp ht with h2 | h2
        · rw [← h2]; exact h1
        · exact absurd ⟨t, h2, h1⟩ hrest
      refine ⟨s, List.mem_cons_self _ _, hs.1, hs.2, ?_⟩
      rw [rebuild_lookup_other rest _ h k (fun t ht hm => hrest ⟨t, ht, hm⟩), cacheAssign_lookup]
      simp [hs]

/-- Every entry of a rebuilt cache is a registered service, stored under its
host name and its short name. -/
theorem rebuild_sound (S l : List Service)
    (init : List (String × List (String × Option Service)))
    (hl : ∀ s ∈ l, s ∈ S)
    (hinit : ∀ h inner, (h, inner) ∈ init → ∀ k ws, (k, ws) ∈ inner →
      ∃ s, ws = some s ∧ s ∈ S ∧ s.host_name = h ∧ s.short_name = k) :
    ∀ h inner, (h, inner) ∈ l.foldl (fun cache s =>
        cacheAssign cache s.host_name s.short_name s) init →
      ∀ k ws, (k, ws) ∈ inner →
        ∃ s, ws = some s ∧ s ∈ S ∧ s.host_name = h ∧ s.short_name = k := by
  induction l generalizing init with
  | nil => exact hinit
  | cons s rest ih =>
    simp only [List.foldl_cons]
    apply ih _ (fun t ht => hl t (List.mem_cons_of_mem _ ht))
    intro h inner hmem k ws hk
    unfold cacheAssign at hmem
    rcases mem_mapSet _ _ _ _ hmem with h1 | h1
    · simp only [Prod.mk.injEq] at h1
      obtain ⟨h1a, h1b⟩ := h1
      subst h1a
      subst h1b
      rcases mem_mapSet _ _ _ _ hk with h2 | h2
      · simp only [Prod.mk.injEq] at h2
        exact ⟨s, h2.2, hl s (List.mem_cons_self _ _), rfl, h2.1.symm⟩
      · cases hf : mapFind init s.host_name with
        | none => rw [hf] at h2; simp at h2
        | some inner0 =>
          rw [hf] at h2
          exact hinit _ inner0 (mapFind_mem _ _ _ hf) k ws h2
    · exact hinit h inner h1 k ws hk

theorem GetServices_loop_mem (entries : List (String × Option Service)) (acc : List Service)
    (s : Service) :
    s ∈ Host.GetServices.loop entries acc ↔ s ∈ acc ∨ ∃ k, (k, some s) ∈ entries := by
  induction entries generalizing acc with
  | nil => simp [Host.GetServices.loop]
  | cons e rest ih =>
    obtain ⟨k1, ws⟩ := e
    cases ws with
    | none =>
      simp only [Host.GetServices.loop, ih, List.mem_cons, Prod.mk.injEq]
      constructor
      · rintro (h | ⟨k, h⟩)
        · exact Or.inl h
        · exact Or.inr ⟨k, Or.inr h⟩
      · rintro (h | ⟨k, h | h⟩)
        · exact Or.inl h
        · simp at h
        · exact Or.inr ⟨k, h⟩
    | some t =>
      simp only [Host.GetServices.loop, ih, List.mem_cons, Prod.mk.injEq, Option.some.injEq]
      have hins : s ∈ insertService acc t ↔ s ∈ acc ∨ s = t := by
        unfold insertService
        by_cases hm : t ∈ acc
        · simp only [hm, if_true]
          constructor
          · exact Or.inl
          · rintro (h | h)
            · exact h
            · rw [h]; exact hm
        · simp [hm]
      rw [hins]
      constructor
      · rintro ((h | h) | ⟨k, h⟩)
        · exact Or.inl h
        · exact Or.inr ⟨k1, Or.inl ⟨rfl, h⟩⟩
        · exact Or.inr ⟨k, Or.inr h⟩
      · rintro (h | ⟨k, h | h⟩)
        · exact Or.inl (Or.inl h)
        · exact Or.inl (Or.inr h.2)
        · exact Or.inr ⟨k, h⟩

/-! ## The service-by-host cache: the claims -/

/-- C12, counterexample. The registry holds two services of host `B` with the
short name `ping`, and a service of another host. After an invalidation
`Host::GetServices` returns the second of the two only: the registered service
`B-ping` of host `B` is missing. -/
theorem GetServices_misses_duplicate :
    (Host.GetServices worldDuplicate hostB (Host.InvalidateServicesCache initialCache)).1 =
        [pingSecond] ∧
    pingFirst ∈ worldDuplicate.services ∧ pingFirst.host_name = hostB.name ∧
    pingFirst ∉
      (Host.GetServices worldDuplicate hostB (Host.InvalidateServicesCache initialCache)).1 := by
  refine ⟨?_, ?_, ?_, ?_⟩ <;> decide

/-- C12, amended. After `Host::InvalidateServicesCache`, `Host::GetServices` on a
host returns registered services of that host only, and for every registered
service of the host it returns a registered service of the host with the same
short name. When no two registered services of the host share a short name, it
returns exactly the registered services of the host. -/
theorem GetServices_after_invalidate (w : World) (self : Host) (c : ServicesCache) :
    (∀ s ∈ (Host.GetServices w self (Host.InvalidateServicesCache c)).1,
      s ∈ w.services ∧ s.host_name = self.name) ∧
    (∀ s ∈ w.services, s.host_name = self.name →
      ∃ t ∈ (Host.GetServices w self (Host.InvalidateServicesCache c)).1,
        t ∈ w.services ∧ t.host_name = self.name ∧ t.short_name = s.short_name) ∧
    ((∀ s ∈ w.services, ∀ t ∈ w.services, s.host_name = self.name → t.host_name = self.name →
        s.short_name = t.short_name → s = t) →
      ∀ s, s ∈ (Host.GetServices w self (Host.InvalidateServicesCache c)).1 ↔
        (s ∈ w.services ∧ s.host_name = self.name)) := by
  have hsound : ∀ s ∈ (Host.GetServices w self (Host.InvalidateServicesCache c)).1,
      s ∈ w.services ∧ s.host_name = self.name := by
    intro s hs
    simp only [Host.GetServices, Host.ValidateServicesCache, Host.InvalidateServicesCache,
      Bool.false_eq_true, if_false, ServicesCache.ofHost] at hs
    rw [GetServices_loop_mem] at hs
    rcases hs with hs | ⟨k, hk⟩
    · simp at hs
    · cases hf : mapFind (w.services.foldl (fun cache s =>
          cacheAssign cache s.host_name s.short_name s) []) self.name with
      | none => rw [hf] at hk; simp at hk
      | some inner =>
        rw [hf] at hk
        obtain ⟨t, ht, hmem, hhost, _⟩ :=
          rebuild_sound w.services w.services [] (fun s hs => hs) (by simp) self.name inner
            (mapFind_mem _ _ _ hf) k (some s) hk
        simp only [Option.some.injEq] at ht
        subst ht
        exact ⟨hmem, hhost⟩
  have hrep : ∀ s ∈ w.services, s.host_name = self.name →
      ∃ t ∈ (Host.GetServices w self (Host.InvalidateServicesCache c)).1,
        t ∈ w.services ∧ t.host_name = self.name ∧ t.short_name = s.short_name := by
    intro s hs hhost
    obtain ⟨t, ht, h1, h2, h3⟩ :=
      rebuild_lookup_some w.services [] self.name s.short_name ⟨s, hs, hhost, rfl⟩
    refine ⟨t, ?_, ht, h1, h2⟩
    simp only [Host.GetServices, Host.ValidateServicesCache, Host.InvalidateServicesCache,
      Bool.false_eq_true, if_false, ServicesCache.ofHost]
    rw [GetServices_loop_mem]
    exact Or.inr ⟨s.short_name, mapFind_mem _ _ _ h3⟩
  refine ⟨hsound, hrep, ?_⟩
  intro hdistinct s
  constructor
  · exact hsound s
  · rintro ⟨hs, hhost⟩
    obtain ⟨t, ht, htm, hth, hts⟩ := hrep s hs hhost
    have : s = t := hdistinct s hs t htm hhost hth hts.symm
    rw [this]
    exact ht

/-- C12, amended, at the registry with a Critical `A-ping`: the services of host
`A` after an invalidation are exactly its registered services. -/
theorem GetServices_after_invalidate_witness :
    ∀ s, s ∈ (Host.GetServices worldCritical hostA (Host.InvalidateServicesCache initialCache)).1 ↔
      (s ∈ worldCritical.services ∧ s.host_name = hostA.name) :=
  (GetServices_after_invalidate worldCritical hostA initialCache).2.2
    (by
      intro s hs t ht _ _ _
      simp only [worldCritical, List.mem_singleton] at hs ht
      rw [hs, ht])

/-- For every cache state, `Host::GetServices` returns the services of the live
entries of the validated cache for the host: an expired entry is skipped. -/
theorem GetServices_mem (w : World) (self : Host) (c : ServicesCache) (s : Service) :
    s ∈ (Host.GetServices w self c).1 ↔
      ∃ k, (k, some s) ∈ (Host.ValidateServicesCache w c).ofHost self.name := by
  simp only [Host.GetServices]
  rw [GetServices_loop_mem]
  simp

/-- C13, the code at the failing input. In a cache whose flag is set and whose
entry for host `A` under `ping` has expired, the lookup of the scalar name
`ping` by `Host::GetServiceByShortName` fails the assertion `assert(service)`;
`Host::GetServices` on the same cache skips the entry and returns the empty
set. -/
theorem GetServiceByShortName_expired :
    mapFind (expiredCache.ofHost hostA.name) "ping" = some none ∧
    (Host.GetServiceByShortName worldCritical hostA (.Scalar "ping") expiredCache).1 =
        .error .assertion_failed ∧
    (Host.GetServices worldCritical hostA expiredCache).1 = [] := by
  refine ⟨?_, ?_, ?_⟩
  · decide
  · rw [GetServiceByShortName_scalar]
    decide
  · decide

/-- C19. `Host::ValidateServicesCache` leaves a cache whose flag is set as it
is. On a cache whose flag is not set it sets the flag and leaves a content that
is the same whatever the content was before; for every registered service, the
content holds a registered service under that host name and short name.
`Host::InvalidateServicesCache` leaves the flag unset and the content empty. -/
theorem ValidateServicesCache_spec (w : World) (c : ServicesCache) :
    (c.m_ServicesCacheValid = true → Host.ValidateServicesCache w c = c) ∧
    (c.m_ServicesCacheValid = false →
      (Host.ValidateServicesCache w c).m_ServicesCacheValid = true ∧
      (∀ c2 : ServicesCache, c2.m_ServicesCacheValid = false →
        Host.ValidateServicesCache w c2 = Host.ValidateServicesCache w c) ∧
      (∀ s ∈ w.services, ∃ t ∈ w.services, t.host_name = s.host_name ∧
        t.short_name = s.short_name ∧
        mapFind ((Host.ValidateServicesCache w c).ofHost s.host_name) s.short_name =
          some (some t))) ∧
    (Host.InvalidateServicesCache c).m_ServicesCacheValid = false ∧
    (Host.InvalidateServicesCache c).m_ServicesCache = [] := by
  refine ⟨?_, ?_, rfl, rfl⟩
  · intro h
    simp [Host.ValidateServicesCache, h]
  · intro h
    refine ⟨by simp [Host.ValidateServicesCache, h], ?_, ?_⟩
    · intro c2 h2
      simp [Host.ValidateServicesCache, h, h2]
    · intro s hs
      obtain ⟨t, ht, h1, h2, h3⟩ :=
        rebuild_lookup_some w.services [] s.host_name s.short_name ⟨s, hs, rfl, rfl⟩
      refine ⟨t, ht, h1, h2, ?_⟩
      simp only [Host.ValidateServicesCache, h, Bool.false_eq_true, if_false,
        ServicesCache.ofHost]
      exact h3

/-- C19, at the cache of program start, whose flag is set, and at the cache with
the expired entry once it is invalidated. -/
theorem ValidateServicesCache_spec_witness :
    Host.ValidateServicesCache worldCritical initialCache = initialCache ∧
    (Host.ValidateServicesCache worldCritical
      (Host.InvalidateServicesCache expiredCache)).m_ServicesCacheValid = true :=
  ⟨(ValidateServicesCache_spec worldCritical initialCache).1 rfl,
   ((ValidateServicesCache_spec worldCritical
      (Host.InvalidateServicesCache expiredCache)).2.1 rfl).1⟩

/-! ## The dynamic macros -/

/-- The macros of a host with no check service: the three identity keys. -/
theorem CalculateDynamicMacros_no_check (statics : ServiceStatics) (w : World) (self : Host)
    (c : ServicesCache) (reachable : Bool) (displayName : String)
    (hhc : self.GetHostCheckService = none)
    (hr : Host.IsReachable w self c = .ok reachable)
    (hdn : self.GetDisplayName = .ok displayName) :
    Host.CalculateDynamicMacros statics w self c =
      .ok [("HOSTNAME", .Scalar self.name), ("HOSTDISPLAYNAME", .Scalar displayName),
           ("HOSTALIAS", .Scalar self.name)] := by
  unfold Host.CalculateDynamicMacros
  simp only [hdn, hr, hhc, Dictionary.Set, mapSet]
  simp

/-- The macros of a host with a check service: the three identity keys, the five
state keys, and the four result keys when the check service has a result. -/
theorem CalculateDynamicMacros_check (statics : ServiceStatics) (w : World) (self : Host)
    (c : ServicesCache) (hc : Service) (reachable : Bool) (displayName : String)
    (hhc : self.GetHostCheckService = some hc)
    (hr : Host.IsReachable w self c = .ok reachable)
    (hdn : self.GetDisplayName = .ok displayName) :
    Host.CalculateDynamicMacros statics w self c =
      .ok ([("HOSTNAME", .Scalar self.name), ("HOSTDISPLAYNAME", .Scalar displayName),
            ("HOSTALIAS", .Scalar self.name),
            ("HOSTSTATE", .Scalar
              (if reachable = false then "UNREACHABLE"
               else if hc.state = .StateOK ∨ hc.state = .StateWarning then "UP" else "DOWN")),
            ("HOSTSTATEID", .Scalar
              (if reachable = false then "2"
               else if hc.state = .StateOK ∨ hc.state = .StateWarning then "0" else "1")),
            ("HOSTSTATETYPE", .Scalar (statics.StateTypeToString hc.stateType)),
            ("HOSTATTEMPT", .Scalar (toString hc.currentCheckAttempt)),
            ("MAXHOSTATTEMPT", .Scalar (toString hc.maxCheckAttempts))] ++
           (match hc.lastCheckResult with
            | none => []
            | some cr =>
              [("HOSTLATENCY", statics.CalculateLatency cr),
               ("HOSTEXECUTIONTIME", statics.CalculateExecutionTime cr),
               ("HOSTOUTPUT", Dictionary.Get cr "output"),
               ("HOSTPERFDATA", Dictionary.Get cr "performance_data_raw")])) := by
  unfold Host.CalculateDynamicMacros
  simp only [hdn, hr, hhc, Dictionary.Set, mapSet]
  cases hcr : hc.lastCheckResult <;> cases reachable <;> cases hst : hc.state <;>
    simp [mapSet]

/-- C14, counterexample. Host `Q` has a check service with no check result yet.
Its macros hold the five state keys, `HOSTSTATE` among them. -/
theorem CalculateDynamicMacros_pending_has_state :
    hostQ.GetHostCheckService = some pendingCheck ∧ pendingCheck.lastCheckResult = none ∧
    (Host.CalculateDynamicMacros exampleStatics worldPQ hostQ initialCache).map
        (fun macros => macros.map (fun e => e.1)) =
      .ok ["HOSTNAME", "HOSTDISPLAYNAME", "HOSTALIAS", "HOSTSTATE", "HOSTSTATEID",
           "HOSTSTATETYPE", "HOSTATTEMPT", "MAXHOSTATTEMPT"] ∧
    (Host.CalculateDynamicMacros exampleStatics worldPQ hostQ initialCache).map
        (fun macros => Dictionary.Get macros "HOSTSTATE") = .ok (.Scalar "DOWN") := by
  refine ⟨?_, ?_, ?_, ?_⟩ <;> decide

/-- C14, amended. For a host whose evaluation returns and whose check service
has no completed check result, the macros hold none of `HOSTLATENCY`,
`HOSTEXECUTIONTIME`, `HOSTOUTPUT` and `HOSTPERFDATA`. When the host has no check
service they hold none of `HOSTSTATE`, `HOSTSTATEID`, `HOSTSTATETYPE`,
`HOSTATTEMPT` and `MAXHOSTATTEMPT` either; when it has a check service, with or
without a result, they hold all five. -/
theorem CalculateDynamicMacros_keys (statics : ServiceStatics) (w : World) (self : Host)
    (c : ServicesCache) (reachable : Bool) (displayName : String)
    (hr : Host.IsReachable w self c = .ok reachable)
    (hdn : self.GetDisplayName = .ok displayName)
    (hno : self.GetHostCheckService = none ∨
      ∃ hc, self.GetHostCheckService = some hc ∧ hc.lastCheckResult = none) :
    ∃ macros, Host.CalculateDynamicMacros statics w self c = .ok macros ∧
      (∀ key ∈ ["HOSTLATENCY", "HOSTEXECUTIONTIME", "HOSTOUTPUT", "HOSTPERFDATA"],
        Dictionary.Contains macros key = false) ∧
      (self.GetHostCheckService = none →
        ∀ key ∈ ["HOSTSTATE", "HOSTSTATEID", "HOSTSTATETYPE", "HOSTATTEMPT", "MAXHOSTATTEMPT"],
          Dictionary.Contains macros key = false) ∧
      ((∃ hc, self.GetHostCheckService = some hc) →
        ∀ key ∈ ["HOSTSTATE", "HOSTSTATEID", "HOSTSTATETYPE", "HOSTATTEMPT", "MAXHOSTATTEMPT"],
          Dictionary.Contains macros key = true) := by
  rcases hno with hnone | ⟨hc, hsome, hcr⟩
  · refine ⟨_, CalculateDynamicMacros_no_check statics w self c reachable displayName hnone hr hdn,
      ?_, ?_, ?_⟩
    · intro key hkey
      simp only [List.mem_cons, List.mem_singleton, List.not_mem_nil, or_false] at hkey
      rcases hkey with h | h | h | h <;> subst h <;> simp [Dictionary.Contains]
    · intro _ key hkey
      simp only [List.mem_cons, List.mem_singleton, List.not_mem_nil, or_false] at hkey
      rcases hkey with h | h | h | h | h <;> subst h <;> simp [Dictionary.Contains]
    · rintro ⟨hc, hsome⟩
      rw [hnone] at hsome
      cases hsome
  · refine ⟨_, CalculateDynamicMacros_check statics w self c hc reachable displayName hsome hr hdn,
      ?_, ?_, ?_⟩
    · intro key hkey
      simp only [List.mem_cons, List.mem_singleton, List.not_mem_nil, or_false] at hkey
      rw [hcr]
      rcases hkey with h | h | h | h <;> subst h <;> simp [Dictionary.Contains]
    · intro hnone
      rw [hnone] at hsome
      cases hsome
    · intro _ key hkey
      simp only [List.mem_cons, List.mem_singleton, List.not_mem_nil, or_false] at hkey
      rw [hcr]
      rcases hkey with h | h | h | h | h <;> subst h <;> simp [Dictionary.Contains]

/-- C14, amended, at host `P`, which has no check service: no state key. -/
theorem CalculateDynamicMacros_keys_witness :
    ∃ macros, Host.CalculateDynamicMacros exampleStatics worldPQ hostP initialCache = .ok macros ∧
      Dictionary.Contains macros "HOSTSTATE" = false ∧
      Dictionary.Contains macros "HOSTOUTPUT" = false := by
  obtain ⟨macros, h1, h2, h3, _⟩ :=
    CalculateDynamicMacros_keys exampleStatics worldPQ hostP initialCache true "P"
      (by decide) (by decide) (Or.inl rfl)
  exact ⟨macros, h1, h3 rfl "HOSTSTATE" (by simp), h2 "HOSTOUTPUT" (by simp)⟩

/-- C15. For a host with a check service whose evaluation returns, the macros
hold `HOSTSTATE` and `HOSTSTATEID`: `UNREACHABLE` and `2` when the host is not
reachable; otherwise `UP` and `0` when the state of the check service is OK or
Warning, and `DOWN` and `1` for every other state. `HOSTSTATE` is `UNREACHABLE`
exactly when the host is not reachable. -/
theorem CalculateDynamicMacros_state (statics : ServiceStatics) (w : World) (self : Host)
    (c : ServicesCache) (hc : Service) (reachable : Bool) (displayName : String)
    (hhc : self.GetHostCheckService = some hc)
    (hr : Host.IsReachable w self c = .ok reachable)
    (hdn : self.GetDisplayName = .ok displayName) :
    ∃ macros, Host.CalculateDynamicMacros statics w self c = .ok macros ∧
      Dictionary.Get macros "HOSTSTATE" = .Scalar
        (if reachable = false then "UNREACHABLE"
         else if hc.state = .StateOK ∨ hc.state = .StateWarning then "UP" else "DOWN") ∧
      Dictionary.Get macros "HOSTSTATEID" = .Scalar
        (if reachable = false then "2"
         else if hc.state = .StateOK ∨ hc.state = .StateWarning then "0" else "1") ∧
      (Dictionary.Get macros "HOSTSTATE" = .Scalar "UNREACHABLE" ↔ reachable = false) ∧
      (Dictionary.Get macros "HOSTSTATE" = .Scalar "UP" ∨
       Dictionary.Get macros "HOSTSTATE" = .Scalar "DOWN" ∨
       Dictionary.Get macros "HOSTSTATE" = .Scalar "UNREACHABLE") := by
  have hget : Dictionary.Get
      ([("HOSTNAME", .Scalar self.name), ("HOSTDISPLAYNAME", .Scalar displayName),
        ("HOSTALIAS", .Scalar self.name),
        ("HOSTSTATE", .Scalar
          (if reachable = false then "UNREACHABLE"
           else if hc.state = .StateOK ∨ hc.state = .StateWarning then "UP" else "DOWN")),
        ("HOSTSTATEID", .Scalar
          (if reachable = false then "2"
           else if hc.state = .StateOK ∨ hc.state = .StateWarning then "0" else "1")),
        ("HOSTSTATETYPE", .Scalar (statics.StateTypeToString hc.stateType)),
        ("HOSTATTEMPT", .Scalar (toString hc.currentCheckAttempt)),
        ("MAXHOSTATTEMPT", .Scalar (toString hc.maxCheckAttempts))] ++
       (match hc.lastCheckResult with
        | none => []
        | some cr =>
          [("HOSTLATENCY", statics.CalculateLatency cr),
           ("HOSTEXECUTIONTIME", statics.CalculateExecutionTime cr),
           ("HOSTOUTPUT", Dictionary.Get cr "output"),
           ("HOSTPERFDATA", Dictionary.Get cr "performance_data_raw")])) "HOSTSTATE" =
      .Scalar (if reachable = false then "UNREACHABLE"
        else if hc.state = .StateOK ∨ hc.state = .StateWarning then "UP" else "DOWN") := by
    simp [Dictionary.Get]
  refine ⟨_, CalculateDynamicMacros_check statics w self c hc reachable displayName hhc hr hdn,
    hget, ?_, ?_, ?_⟩
  · simp [Dictionary.Get]
  · rw [hget]
    cases reachable
    · simp
    · by_cases hst : hc.state = .StateOK ∨ hc.state = .StateWarning
      · rw [if_neg (by decide), if_pos hst]
        decide
      · rw [if_neg (by decide), if_neg hst]
        decide
  · rw [hget]
    cases reachable
    · simp
    · by_cases hst : hc.state = .StateOK ∨ hc.state = .StateWarning
      · rw [if_neg (by decide), if_pos hst]
        decide
      · rw [if_neg (by decide), if_neg hst]
        decide

/-- C15, at host `E` depending on host `P`, which has no check service: with a
check service of its own, `E` is reported `UNREACHABLE`. -/
theorem CalculateDynamicMacros_state_witness :
    ∃ macros,
      Host.CalculateDynamicMacros exampleStatics worldPQ
        { hostE [("0", .Scalar "P")] with m_HostCheckService := some pingOK } initialCache =
          .ok macros ∧
      Dictionary.Get macros "HOSTSTATE" = .Scalar "UNREACHABLE" ∧
      Dictionary.Get macros "HOSTSTATEID" = .Scalar "2" := by
  obtain ⟨macros, h1, h2, h3, _⟩ :=
    CalculateDynamicMacros_state exampleStatics worldPQ
      { hostE [("0", .Scalar "P")] with m_HostCheckService := some pingOK } initialCache
      pingOK false "E" rfl (by decide) (by decide)
  exact ⟨macros, h1, h2, h3⟩

/-! ## The validation of a service dictionary -/

/-- C16, the code at the failing input. With no compiler context
(`ConfigCompilerContext::GetContext()` is null) and a dictionary whose entry
names a service that no item has, the error is added through the null pointer;
with a context, the same call adds one error that holds the location and the
name, and returns. -/
theorem ValidateServiceDictionary_null_context :
    Host.ValidateServiceDictionary worldB none validationArguments =
      (.error .null_dereference, none) ∧
    Host.ValidateServiceDictionary worldB (some emptyContext) validationArguments =
      (.ok (),
       some { emptyContext with
         errors := [(false, "Validation failed for hosts.conf:3: Service 'nosuch' not found.")] }) := by
  constructor <;> decide

/-! ## Reconciliation: a second call -/

theorem entryBuilder_congr (self self2 : Host) (hname : self2.name = self.name)
    (hattr : self2.attributes = self.attributes) (dbg k : String) (v : Value) :
    Host.UpdateSlaveServices.entryBuilder self2 dbg k v =
      Host.UpdateSlaveServices.entryBuilder self dbg k v := by
  unfold Host.UpdateSlaveServices.entryBuilder
  rw [hname, hattr]

theorem loop_congr (w : World) (self self2 : Host) (hname : self2.name = self.name)
    (hattr : self2.attributes = self.attributes) (dbg : String) (d : List (String × Value))
    (ns : List (String × Option ConfigItem)) (cm : List ConfigItem) :
    Host.UpdateSlaveServices.loop w self2 dbg d ns cm =
      Host.UpdateSlaveServices.loop w self dbg d ns cm := by
  induction d generalizing ns cm with
  | nil => rfl
  | cons e rest ih =>
    obtain ⟨k, v⟩ := e
    simp only [Host.UpdateSlaveServices.loop, entryBuilder_congr self self2 hname hattr, ih]

theorem mapFind_isSome_of_mem {β : Type} (m : List (String × β)) (k : String) (v : β)
    (h : (k, v) ∈ m) : (mapFind m k).isSome = true := by
  induction m with
  | nil => simp at h
  | cons e rest ih =>
    obtain ⟨k1, v1⟩ := e
    simp only [mapFind]
    by_cases h1 : k1 = k
    · simp [h1]
    · simp only [h1, if_false]
      rcases List.mem_cons.mp h with h2 | h2
      · simp only [Prod.mk.injEq] at h2
        exact absurd h2.1.symm h1
      · exact ih h2

/-- Every entry of a new dictionary holds an item under the name of the item. -/
theorem stored_entries (items : List ConfigItem) (ns : List (String × Option ConfigItem))
    (hns : ∀ e ∈ ns, ∃ i, e = (i.name, some i)) :
    ∀ e ∈ items.foldl (fun acc i => mapSet acc i.name (some i)) ns,
      ∃ i, e = (i.name, some i) := by
  induction items generalizing ns with
  | nil => exact hns
  | cons i rest ih =>
    simp only [List.foldl_cons]
    apply ih
    intro e he
    rcases mem_mapSet _ _ _ _ he with h | h
    · exact ⟨i, h⟩
    · exact hns e h

/-- A dictionary whose entries hold items under their names has nothing to
unregister when it is compared with itself. -/
theorem unregisterLoop_self (new old : List (String × Option ConfigItem))
    (hold : ∀ e ∈ old, e ∈ new) (hnew : ∀ e ∈ new, ∃ i, e = (i.name, some i)) :
    Host.UpdateSlaveServices.unregisterLoop new old = [] := by
  induction old with
  | nil => rfl
  | cons e rest ih =>
    obtain ⟨k, v⟩ := e
    have hmem := hold (k, v) (List.mem_cons_self _ _)
    obtain ⟨i, hi⟩ := hnew (k, v) hmem
    simp only [Prod.mk.injEq] at hi
    obtain ⟨hk, hv⟩ := hi
    subst hv
    subst hk
    simp only [Host.UpdateSlaveServices.unregisterLoop,
      mapFind_isSome_of_mem new i.name (some i) hmem, Option.isNone_iff_eq_none]
    have hsome := mapFind_isSome_of_mem new i.name (some i) hmem
    cases hf : mapFind new i.name with
    | none => rw [hf] at hsome; cases hsome
    | some x =>
      simp only [if_false, reduceCtorEq]
      exact ih (fun e he => hold e (List.mem_cons_of_mem _ he))

/-- What a call builds depends on the name, the abstract flag and the attributes
of the owner only; what it unregisters is what the member `m_SlaveServices`
holds and the new dictionary does not. -/
theorem UpdateSlaveServices_congr (w : World) (self self2 : Host)
    (hname : self2.name = self.name) (habs : self2.abstract = self.abstract)
    (hattr : self2.attributes = self.attributes) :
    (Host.UpdateSlaveServices w self2).result = (Host.UpdateSlaveServices w self).result ∧
    (Host.UpdateSlaveServices w self2).committed = (Host.UpdateSlaveServices w self).committed ∧
    (Host.UpdateSlaveServices w self2).newServices =
      (Host.UpdateSlaveServices w self).newServices ∧
    (Host.UpdateSlaveServices w self2).unregistered =
      (match (Host.UpdateSlaveServices w self).newServices, self2.m_SlaveServices with
       | some new, some old => Host.UpdateSlaveServices.unregisterLoop new old
       | _, _ => []) := by
  unfold Host.UpdateSlaveServices
  simp only [hname, habs, hattr]
  cases hi : w.GetItem "Host" self.name with
  | none => simp
  | some item =>
    cases ha : self.abstract with
    | true => simp
    | false =>
      cases hd : (Dictionary.Get self.attributes "services").toDictionary with
      | error e => simp
      | ok sd =>
        cases sd with
        | none =>
          cases self2.m_SlaveServices <;> simp
        | some d =>
          simp only [loop_congr w self self2 hname hattr]
          cases hl : Host.UpdateSlaveServices.loop w self item.debug_info d [] [] with
          | mk r cm =>
            cases r with
            | error e => simp
            | ok ns => cases self2.m_SlaveServices <;> simp

theorem UpdateSlaveServices_self (w : World) (self : Host) :
    (Host.UpdateSlaveServices w self).self.name = self.name ∧
    (Host.UpdateSlaveServices w self).self.abstract = self.abstract ∧
    (Host.UpdateSlaveServices w self).self.attributes = self.attributes := by
  unfold Host.UpdateSlaveServices
  cases hi : w.GetItem "Host" self.name with
  | none =>
    simp [hi]
  | some item =>
    cases ha : self.abstract with
    | true =>
      simp [hi, ha]
    | false =>
      cases hd : (Dictionary.Get self.attributes "services").toDictionary with
      | error e =>
        simp [hi, ha, hd]
      | ok o =>
        simp only [hi, ha, hd, Bool.false_eq_true, if_false]
        split <;> exact ⟨rfl, ha, rfl⟩

theorem UpdateSlaveServices_newServices (w : World) (self : Host)
    (ns : List (String × Option ConfigItem))
    (h : (Host.UpdateSlaveServices w self).newServices = some ns) :
    ∀ e ∈ ns, ∃ i, e = (i.name, some i) := by
  unfold Host.UpdateSlaveServices at h
  cases hi : w.GetItem "Host" self.name with
  | none => simp [hi] at h
  | some item =>
    cases ha : self.abstract with
    | true => simp [hi, ha] at h
    | false =>
      cases hd : (Dictionary.Get self.attributes "services").toDictionary with
      | error e => simp [hi, ha, hd] at h
      | ok sd =>
        cases sd with
        | none =>
          simp only [hi, ha, hd, Bool.false_eq_true, if_false, Option.some.injEq] at h
          subst h
          simp
        | some d =>
          simp only [hi, ha, hd, Bool.false_eq_true, if_false] at h
          cases hl : Host.UpdateSlaveServices.loop w self item.debug_info d [] [] with
          | mk r cm =>
            cases r with
            | error e => simp [hl] at h
            | ok ns2 =>
              simp only [hl, Option.some.injEq] at h
              subst h
              obtain ⟨items, _, _, hns⟩ := loop_ok w self item.debug_info d [] ns2 [] cm hl
              rw [hns]
              exact stored_entries items [] (by simp)

/-- C17. Let a reconciliation return normally. The owner it leaves has the same
name, abstract flag and attributes. A second call on an owner with these, whose
member `m_SlaveServices` is empty or holds the set recorded by the first call,
returns normally, commits items equal to those of the first call (same type,
name, parents and expressions), builds the same new dictionary and unregisters
nothing. -/
theorem UpdateSlaveServices_idempotent (w : World) (self : Host)
    (hres : (Host.UpdateSlaveServices w self).result = .ok ()) :
    ((Host.UpdateSlaveServices w self).self.name = self.name ∧
     (Host.UpdateSlaveServices w self).self.abstract = self.abstract ∧
     (Host.UpdateSlaveServices w self).self.attributes = self.attributes ∧
     (Host.UpdateSlaveServices w self).self.m_SlaveServices = self.m_SlaveServices) ∧
    ∀ self2 : Host, self2.name = self.name → self2.abstract = self.abstract →
      self2.attributes = self.attributes →
      (self2.m_SlaveServices = none ∨
        self2.m_SlaveServices = (Host.UpdateSlaveServices w self).newServices) →
      (Host.UpdateSlaveServices w self2).result = .ok () ∧
      (Host.UpdateSlaveServices w self2).committed = (Host.UpdateSlaveServices w self).committed ∧
      (Host.UpdateSlaveServices w self2).newServices =
        (Host.UpdateSlaveServices w self).newServices ∧
      (Host.UpdateSlaveServices w self2).unregistered = [] := by
  obtain ⟨h1, h2, h3⟩ := UpdateSlaveServices_self w self
  refine ⟨⟨h1, h2, h3, UpdateSlaveServices_m_SlaveServices w self⟩, ?_⟩
  intro self2 hname habs hattr hold
  obtain ⟨c1, c2, c3, c4⟩ := UpdateSlaveServices_congr w self self2 hname habs hattr
  refine ⟨by rw [c1, hres], c2, c3, ?_⟩
  rw [c4]
  rcases hold with hold | hold
  · rw [hold]
    cases (Host.UpdateSlaveServices w self).newServices <;> rfl
  · rw [hold]
    cases hn : (Host.UpdateSlaveServices w self).newServices with
    | none => rfl
    | some ns =>
      exact unregisterLoop_self ns ns (fun e he => he)
        (UpdateSlaveServices_newServices w self ns hn)

/-- C17, at host `B`: the second call on the owner the first call leaves commits
the same two items and unregisters nothing. -/
theorem UpdateSlaveServices_idempotent_witness :
    (Host.UpdateSlaveServices worldB (Host.UpdateSlaveServices worldB hostB).self).committed =
        (Host.UpdateSlaveServices worldB hostB).committed ∧
    (Host.UpdateSlaveServices worldB (Host.UpdateSlaveServices worldB hostB).self).unregistered =
        [] := by
  have h := (UpdateSlaveServices_idempotent worldB hostB (by decide)).2
    (Host.UpdateSlaveServices worldB hostB).self rfl rfl rfl (Or.inl (by decide))
  exact ⟨h.2.1, h.2.2.2⟩

/-! ## Reachability: one hop, monotone -/

theorem serviceLoop_congr_obs (ps1 ps2 : List Service)
    (h : ∀ o : Bool × StateType × ServiceState,
      (∃ s ∈ ps1, (s.lastCheckResult.isSome, s.stateType, s.state) = o) ↔
      (∃ s ∈ ps2, (s.lastCheckResult.isSome, s.stateType, s.state) = o)) :
    Host.IsReachable.serviceLoop ps1 = Host.IsReachable.serviceLoop ps2 := by
  have key : ∀ (a b : List Service),
      (∀ o : Bool × StateType × ServiceState,
        (∃ s ∈ a, (s.lastCheckResult.isSome, s.stateType, s.state) = o) →
        (∃ s ∈ b, (s.lastCheckResult.isSome, s.stateType, s.state) = o)) →
      Host.IsReachable.serviceLoop a = false → Host.IsReachable.serviceLoop b = false := by
    intro a b hab ha
    rw [serviceLoop_eq_false_iff] at ha ⊢
    obtain ⟨s, hs, h1, h2, h3, h4⟩ := ha
    obtain ⟨t, ht, hobs⟩ := hab _ ⟨s, hs, rfl⟩
    simp only [Prod.mk.injEq] at hobs
    refine ⟨t, ht, ?_, ?_, ?_, ?_⟩
    · intro hnone
      rw [hnone] at hobs
      cases hl : s.lastCheckResult with
      | none => exact h1 hl
      | some x => rw [hl] at hobs; simp at hobs
    · rw [hobs.2.1]; exact h2
    · rw [hobs.2.2]; exact h3
    · rw [hobs.2.2]; exact h4
  cases h1 : Host.IsReachable.serviceLoop ps1 with
  | false => exact (key ps1 ps2 (fun o => (h o).mp) h1).symm
  | true =>
    cases h2 : Host.IsReachable.serviceLoop ps2 with
    | true => rfl
    | false =>
      have := key ps2 ps1 (fun o => (h o).mpr) h2
      rw [h1] at this
      cases this

theorem hostLoop_congr_obs (hs1 hs2 : List Host)
    (h : ∀ o : Option ServiceState,
      (∃ x ∈ hs1, x.GetHostCheckService.map (fun hc => hc.state) = o) ↔
      (∃ x ∈ hs2, x.GetHostCheckService.map (fun hc => hc.state) = o)) :
    Host.IsReachable.hostLoop hs1 = Host.IsReachable.hostLoop hs2 := by
  have key : ∀ (a b : List Host),
      (∀ o : Option ServiceState,
        (∃ x ∈ a, x.GetHostCheckService.map (fun hc => hc.state) = o) →
        (∃ x ∈ b, x.GetHostCheckService.map (fun hc => hc.state) = o)) →
      Host.IsReachable.hostLoop a = false → Host.IsReachable.hostLoop b = false := by
    intro a b hab ha
    rw [hostLoop_eq_false_iff] at ha ⊢
    obtain ⟨x, hx, hbad⟩ := ha
    obtain ⟨y, hy, hobs⟩ := hab _ ⟨x, hx, rfl⟩
    refine ⟨y, hy, ?_⟩
    rcases hbad with hnone | ⟨hc, hsome, hst⟩
    · rw [hnone] at hobs
      left
      cases hy2 : y.GetHostCheckService with
      | none => rfl
      | some z => rw [hy2] at hobs; simp at hobs
    · rw [hsome] at hobs
      right
      cases hy2 : y.GetHostCheckService with
      | none => rw [hy2] at hobs; simp at hobs
      | some z =>
        rw [hy2] at hobs
        simp only [Option.map_some', Option.some.injEq] at hobs
        exact ⟨z, rfl, by rw [hobs]; exact hst⟩
  cases h1 : Host.IsReachable.hostLoop hs1 with
  | false => exact (key hs1 hs2 (fun o => (h o).mp) h1).symm
  | true =>
    cases h2 : Host.IsReachable.hostLoop hs2 with
    | true => rfl
    | false =>
      have := key hs2 hs1 (fun o => (h o).mpr) h2
      rw [h1] at this
      cases this

/-- C18. The verdict of `Host::IsReachable` is a function of what is seen one
hop away: whether each parent service has a check result, its state type and
its state, and the state of the check service of each parent host (or that
there is none). Two registry states in which the parents of the host show the
same give the same verdict, whatever the parents' own dependency lists are. -/
theorem IsReachable_one_hop (w1 w2 : World) (self : Host) (c1 c2 : ServicesCache)
    (ps1 ps2 : List Service) (hs1 hs2 : List Host)
    (hps1 : (Host.GetParentServices w1 self c1).1 = .ok ps1)
    (hps2 : (Host.GetParentServices w2 self c2).1 = .ok ps2)
    (hhs1 : Host.GetParentHosts w1 self = .ok hs1)
    (hhs2 : Host.GetParentHosts w2 self = .ok hs2)
    (hservices : ∀ o : Bool × StateType × ServiceState,
      (∃ s ∈ ps1, (s.lastCheckResult.isSome, s.stateType, s.state) = o) ↔
      (∃ s ∈ ps2, (s.lastCheckResult.isSome, s.stateType, s.state) = o))
    (hhosts : ∀ o : Option ServiceState,
      (∃ x ∈ hs1, x.GetHostCheckService.map (fun hc => hc.state) = o) ↔
      (∃ x ∈ hs2, x.GetHostCheckService.map (fun hc => hc.state) = o)) :
    Host.IsReachable w1 self c1 = Host.IsReachable w2 self c2 := by
  rw [IsReachable_eq_combine, IsReachable_eq_combine, hps1, hps2, hhs1, hhs2]
  simp only [Except.map, serviceLoop_congr_obs ps1 ps2 hservices,
    hostLoop_congr_obs hs1 hs2 hhosts]

/-- C18, at host `leaf`, whose parent `gw` has an OK check service: the verdict
is the same whether `gw` depends on the host `core`, which makes `gw`
unreachable, or on nothing; `leaf` is reachable in both. -/
theorem IsReachable_one_hop_witness :
    Host.IsReachable worldChain hostLeaf initialCache =
        Host.IsReachable worldFlat hostLeaf initialCache ∧
    Host.IsReachable worldChain hostGwChained initialCache = .ok false ∧
    Host.IsReachable worldChain hostLeaf initialCache = .ok true := by
  refine ⟨?_, by decide, by decide⟩
  refine IsReachable_one_hop worldChain worldFlat hostLeaf initialCache initialCache
    [] [] [hostGwChained] [hostGwFlat] (by decide) (by decide) (by decide) (by decide) ?_ ?_
  · intro o
    simp
  · intro o
    simp [Host.GetHostCheckService, hostGwChained, hostGwFlat]

theorem resolveServices_ok_of_all (r : Value → Except Error Service)
    (d : List (String × Value)) (p : List Service)
    (h : ∀ e ∈ d, ∃ s, r e.2 = .ok s) :
    ∃ ps, Host.resolveServices r d p = .ok ps := by
  induction d generalizing p with
  | nil => exact ⟨p, rfl⟩
  | cons e rest ih =>
    obtain ⟨k, v⟩ := e
    obtain ⟨s, hs⟩ := h (k, v) (List.mem_cons_self _ _)
    simp only [Host.resolveServices, hs]
    exact ih _ (fun e he => h e (List.mem_cons_of_mem _ he))

theorem mem_insertService (p : List Service) (t s : Service) :
    s ∈ insertService p t ↔ s ∈ p ∨ s = t := by
  unfold insertService
  by_cases hm : t ∈ p
  · simp only [hm, if_true]
    constructor
    · exact Or.inl
    · rintro (h | h)
      · exact h
      · rw [h]; exact hm
  · simp [hm]

theorem resolveServices_mem (r : Value → Except Error Service)
    (d : List (String × Value)) (p ps : List Service)
    (h : Host.resolveServices r d p = .ok ps) (s : Service) :
    s ∈ ps ↔ s ∈ p ∨ ∃ e ∈ d, r e.2 = .ok s := by
  induction d generalizing p with
  | nil =>
    simp only [Host.resolveServices, Except.ok.injEq] at h
    subst h
    simp
  | cons e rest ih =>
    obtain ⟨k, v⟩ := e
    simp only [Host.resolveServices] at h
    cases hr : r v with
    | error err => rw [hr] at h; cases h
    | ok t =>
      rw [hr] at h
      rw [ih _ h, mem_insertService]
      simp only [List.mem_cons, exists_eq_or_imp, hr, Except.ok.injEq]
      constructor
      · rintro ((h1 | h1) | h1)
        · exact Or.inl h1
        · exact Or.inr (Or.inl h1.symm)
        · exact Or.inr (Or.inr h1)
      · rintro (h1 | h1 | h1)
        · exact Or.inl (Or.inl h1)
        · exact Or.inl (Or.inr h1.symm)
        · exact Or.inr h1

theorem GetParentHosts_loop_ok_of_all (w : World) (self : Host) (d : List (String × Value))
    (p : List Host)
    (h : ∀ e ∈ d, ∃ n, e.2.toStr = .ok n ∧
      (n = self.name ∨ ∃ host, Host.GetByName w n = .ok host)) :
    ∃ hs, Host.GetParentHosts.loop w self d p = .ok hs := by
  induction d generalizing p with
  | nil => exact ⟨p, rfl⟩
  | cons e rest ih =>
    obtain ⟨k, v⟩ := e
    obtain ⟨n, hn, hor⟩ := h (k, v) (List.mem_cons_self _ _)
    have hrest := fun q => ih q (fun e he => h e (List.mem_cons_of_mem _ he))
    simp only [Host.GetParentHosts.loop, hn]
    by_cases hself : n = self.name
    · simp only [hself, if_true]
      exact hrest p
    · rcases hor with h1 | ⟨host, hhost⟩
      · exact absurd h1 hself
      · simp only [hself, if_false, hhost]
        exact hrest _

theorem mem_insertHost (w : World) (p : List Host) (t x : Host)
    (hp : ∀ y ∈ p, Host.GetByName w y.name = .ok y)
    (ht : Host.GetByName w t.name = .ok t) :
    x ∈ insertHost p t ↔ x ∈ p ∨ x = t := by
  unfold insertHost
  by_cases hany : p.any (fun y => decide (y.name = t.name)) = true
  · simp only [hany, if_true]
    constructor
    · exact Or.inl
    · rintro (h | h)
      · exact h
      · obtain ⟨y, hy, hname⟩ := List.any_eq_true.mp hany
        simp only [decide_eq_true_eq] at hname
        have h1 := hp y hy
        rw [hname, ht] at h1
        simp only [Except.ok.injEq] at h1
        rw [h, h1]
        exact hy
  · simp [hany]

theorem GetParentHosts_loop_mem (w : World) (self : Host) (d : List (String × Value))
    (p hs : List Host) (h : Host.GetParentHosts.loop w self d p = .ok hs)
    (hp : ∀ y ∈ p, Host.GetByName w y.name = .ok y) (x : Host) :
    x ∈ hs ↔ x ∈ p ∨ ∃ e ∈ d, ∃ n, e.2.toStr = .ok n ∧ n ≠ self.name ∧
      Host.GetByName w n = .ok x := by
  induction d generalizing p with
  | nil =>
    simp only [Host.GetParentHosts.loop, Except.ok.injEq] at h
    subst h
    simp
  | cons e rest ih =>
    obtain ⟨k, v⟩ := e
    simp only [Host.GetParentHosts.loop] at h
    cases hv : v.toStr with
    | error err => rw [hv] at h; cases h
    | ok n =>
      rw [hv] at h
      simp only [] at h
      by_cases hn : n = self.name
      · rw [if_pos hn] at h
        rw [ih p h hp]
        simp only [List.mem_cons, exists_eq_or_imp, hv, Except.ok.injEq]
        constructor
        · rintro (h1 | h1)
          · exact Or.inl h1
          · exact Or.inr (Or.inr h1)
        · rintro (h1 | ⟨m, hm, hne, _⟩ | h1)
          · exact Or.inl h1
          · exact absurd (hm ▸ hn) hne
          · exact Or.inr h1
      · rw [if_neg hn] at h
        cases hg : Host.GetByName w n with
        | error err => rw [hg] at h; cases h
        | ok host =>
          rw [hg] at h
          have hhost : Host.GetByName w host.name = .ok host := by
            rw [GetByName_name w n host hg]; exact hg
          have hp2 : ∀ y ∈ insertHost p host, Host.GetByName w y.name = .ok y := by
            intro y hy
            rcases (mem_insertHost w p host y hp hhost).mp hy with h1 | h1
            · exact hp y h1
            · rw [h1]; exact hhost
          rw [ih _ h hp2, mem_insertHost w p host x hp hhost]
          simp only [List.mem_cons, exists_eq_or_imp, hv, Except.ok.injEq]
          constructor
          · rintro ((h1 | h1) | h1)
            · exact Or.inl h1
            · exact Or.inr (Or.inl ⟨n, rfl, hn, by rw [h1]; exact hg⟩)
            · exact Or.inr (Or.inr h1)
          · rintro (h1 | ⟨m, hm, _, hx⟩ | h1)
            · exact Or.inl (Or.inl h1)
            · subst hm
              rw [hg] at hx
              simp only [Except.ok.injEq] at hx
              exact Or.inl (Or.inr hx.symm)
            · exact Or.inr h1

theorem serviceLoop_congr_mem (a b : List Service) (h : ∀ s, s ∈ a ↔ s ∈ b) :
    Host.IsReachable.serviceLoop a = Host.IsReachable.serviceLoop b := by
  apply serviceLoop_congr_obs
  intro o
  constructor
  · rintro ⟨s, hs, ho⟩
    exact ⟨s, (h s).mp hs, ho⟩
  · rintro ⟨s, hs, ho⟩
    exact ⟨s, (h s).mpr hs, ho⟩

theorem hostLoop_congr_mem (a b : List Host) (h : ∀ x, x ∈ a ↔ x ∈ b) :
    Host.IsReachable.hostLoop a = Host.IsReachable.hostLoop b := by
  apply hostLoop_congr_obs
  intro o
  constructor
  · rintro ⟨x, hx, ho⟩
    exact ⟨x, (h x).mp hx, ho⟩
  · rintro ⟨x, hx, ho⟩
    exact ⟨x, (h x).mpr hx, ho⟩

theorem GetParentHosts_of_mapping (w : World) (self : Host) (d : List (String × Value))
    (hd : Dictionary.Get self.attributes "hostdependencies" = .Mapping d) :
    Host.GetParentHosts w self = Host.GetParentHosts.loop w self d [] := by
  unfold Host.GetParentHosts Host.GetHostDependencies
  rw [hd]
  rfl

/-- Listing the same dependencies in another order keeps a verdict. -/
theorem IsReachable_same_values (w : World) (self self2 : Host) (c : ServicesCache)
    (d1 d2 e1 e2 : List (String × Value)) (hname : self2.name = self.name)
    (hsd1 : Dictionary.Get self.attributes "servicedependencies" = .Mapping d1)
    (hsd2 : Dictionary.Get self2.attributes "servicedependencies" = .Mapping d2)
    (hhd1 : Dictionary.Get self.attributes "hostdependencies" = .Mapping e1)
    (hhd2 : Dictionary.Get self2.attributes "hostdependencies" = .Mapping e2)
    (hd : ∀ v, v ∈ d1.map Prod.snd ↔ v ∈ d2.map Prod.snd)
    (he : ∀ v, v ∈ e1.map Prod.snd ↔ v ∈ e2.map Prod.snd) (b : Bool)
    (h : Host.IsReachable w self c = .ok b) : Host.IsReachable w self2 c = .ok b := by
  have hr : (fun v => (Host.GetServiceByShortName w self2 v c).1) =
      (fun v => (Host.GetServiceByShortName w self v c).1) := by
    funext v
    rw [GetServiceByShortName_congr_name w self self2 v c hname]
  rw [IsReachable_eq_combine, GetParentServices_of_mapping w self c d1 hsd1,
    GetParentHosts_of_mapping w self e1 hhd1] at h
  rw [IsReachable_eq_combine, GetParentServices_of_mapping w self2 c d2 hsd2,
    GetParentHosts_of_mapping w self2 e2 hhd2, hr, GetParentHosts_loop_congr w self self2 hname]
  cases h1 : Host.resolveServices (fun v => (Host.GetServiceByShortName w self v c).1) d1 [] with
  | error err => rw [h1] at h; simp [Except.map, Host.IsReachable.combine] at h
  | ok ps1 =>
    have hall2 : ∀ e ∈ d2, ∃ s, (Host.GetServiceByShortName w self e.2 c).1 = .ok s := by
      intro e hmem
      have hv : e.2 ∈ d1.map Prod.snd := (hd e.2).mpr (List.mem_map_of_mem _ hmem)
      obtain ⟨e', he', heq⟩ := List.mem_map.mp hv
      obtain ⟨s, hs⟩ := resolveServices_ok_all _ d1 [] ps1 h1 e' he'
      exact ⟨s, by rw [← heq]; exact hs⟩
    obtain ⟨ps2, h2⟩ := resolveServices_ok_of_all
      (fun v => (Host.GetServiceByShortName w self v c).1) d2 [] hall2
    have hmem : ∀ s, s ∈ ps1 ↔ s ∈ ps2 := by
      intro s
      rw [resolveServices_mem _ d1 [] ps1 h1 s, resolveServices_mem _ d2 [] ps2 h2 s]
      simp only [List.not_mem_nil, false_or]
      constructor
      · rintro ⟨e, hmem, hs⟩
        obtain ⟨e', he', heq⟩ := List.mem_map.mp ((hd e.2).mp (List.mem_map_of_mem _ hmem))
        exact ⟨e', he', by rw [heq]; exact hs⟩
      · rintro ⟨e, hmem, hs⟩
        obtain ⟨e', he', heq⟩ := List.mem_map.mp ((hd e.2).mpr (List.mem_map_of_mem _ hmem))
        exact ⟨e', he', by rw [heq]; exact hs⟩
    rw [h1] at h
    rw [h2]
    simp only [Except.map, ← serviceLoop_congr_mem ps1 ps2 hmem] at h ⊢
    cases hsl : Host.IsReachable.serviceLoop ps1 with
    | false =>
      rw [hsl] at h
      simpa [Host.IsReachable.combine] using h
    | true =>
      rw [hsl] at h
      cases h3 : Host.GetParentHosts.loop w self e1 [] with
      | error err => rw [h3] at h; simp [Host.IsReachable.combine] at h
      | ok hs1 =>
        have hall4 : ∀ e ∈ e2, ∃ n, e.2.toStr = .ok n ∧
            (n = self.name ∨ ∃ host, Host.GetByName w n = .ok host) := by
          intro e hmem
          obtain ⟨e', he', heq⟩ := List.mem_map.mp ((he e.2).mpr (List.mem_map_of_mem _ hmem))
          obtain ⟨n, hn, hor⟩ := GetParentHosts_loop_ok_all w self e1 [] hs1 h3 e' he'
          exact ⟨n, by rw [← heq]; exact hn, hor⟩
        obtain ⟨hs2, h4⟩ := GetParentHosts_loop_ok_of_all w self e2 [] hall4
        have hmemh : ∀ x, x ∈ hs1 ↔ x ∈ hs2 := by
          intro x
          rw [GetParentHosts_loop_mem w self e1 [] hs1 h3 (by simp) x,
            GetParentHosts_loop_mem w self e2 [] hs2 h4 (by simp) x]
          simp only [List.not_mem_nil, false_or]
          constructor
          · rintro ⟨e, hmem, hx⟩
            obtain ⟨e', he', heq⟩ := List.mem_map.mp ((he e.2).mp (List.mem_map_of_mem _ hmem))
            exact ⟨e', he', by rw [heq]; exact hx⟩
          · rintro ⟨e, hmem, hx⟩
            obtain ⟨e', he', heq⟩ := List.mem_map.mp ((he e.2).mpr (List.mem_map_of_mem _ hmem))
            exact ⟨e', he', by rw [heq]; exact hx⟩
        rw [h3] at h
        rw [h4]
        simp only [← hostLoop_congr_mem hs1 hs2 hmemh]
        exact h

/-- C20. `Host::IsReachable` is monotone in the resolved dependency sets: when
the parent services and parent hosts of one host are among those of another, a
verdict `false` of the first is a verdict `false` of the second, and a verdict
`true` of the second is a verdict `true` of the first. The verdict does not
depend on the order in which the dependencies are listed: two hosts of the same
name whose dependency dictionaries hold the same values in another order get
the same verdict. -/
theorem IsReachable_monotone (w : World) (self self2 : Host) (c c2 : ServicesCache) :
    (∀ ps ps2 hs hs2, (Host.GetParentServices w self c).1 = .ok ps →
      (Host.GetParentServices w self2 c2).1 = .ok ps2 →
      Host.GetParentHosts w self = .ok hs → Host.GetParentHosts w self2 = .ok hs2 →
      (∀ s ∈ ps, s ∈ ps2) → (∀ h ∈ hs, h ∈ hs2) →
      (Host.IsReachable w self c = .ok false → Host.IsReachable w self2 c2 = .ok false) ∧
      (Host.IsReachable w self2 c2 = .ok true → Host.IsReachable w self c = .ok true)) ∧
    (∀ d1 d2 e1 e2, self2.name = self.name →
      Dictionary.Get self.attributes "servicedependencies" = .Mapping d1 →
      Dictionary.Get self2.attributes "servicedependencies" = .Mapping d2 →
      Dictionary.Get self.attributes "hostdependencies" = .Mapping e1 →
      Dictionary.Get self2.attributes "hostdependencies" = .Mapping e2 →
      (d1.map Prod.snd).Perm (d2.map Prod.snd) → (e1.map Prod.snd).Perm (e2.map Prod.snd) →
      ∀ b, Host.IsReachable w self c = .ok b ↔ Host.IsReachable w self2 c = .ok b) := by
  constructor
  · intro ps ps2 hs hs2 hps hps2 hhs hhs2 hsub hsubh
    have hfalse : Host.IsReachable w self c = .ok false →
        Host.IsReachable w self2 c2 = .ok false := by
      rw [IsReachable_eq_combine, IsReachable_eq_combine, hps, hps2, hhs, hhs2]
      simp only [Except.map]
      intro h
      cases h1 : Host.IsReachable.serviceLoop ps with
      | false =>
        obtain ⟨s, hs1, hbad⟩ := (serviceLoop_eq_false_iff ps).mp h1
        have := (serviceLoop_eq_false_iff ps2).mpr ⟨s, hsub s hs1, hbad⟩
        simp [this, Host.IsReachable.combine]
      | true =>
        rw [h1] at h
        cases h2 : Host.IsReachable.hostLoop hs with
        | true => rw [h2] at h; simp [Host.IsReachable.combine] at h
        | false =>
          obtain ⟨x, hx, hbad⟩ := (hostLoop_eq_false_iff hs).mp h2
          have := (hostLoop_eq_false_iff hs2).mpr ⟨x, hsubh x hx, hbad⟩
          cases Host.IsReachable.serviceLoop ps2 <;> simp [this, Host.IsReachable.combine]
    refine ⟨hfalse, ?_⟩
    intro htrue
    have hret : ∃ b, Host.IsReachable w self c = .ok b := by
      rw [IsReachable_eq_combine, hps, hhs]
      simp only [Except.map]
      cases Host.IsReachable.serviceLoop ps <;> cases Host.IsReachable.hostLoop hs <;>
        simp [Host.IsReachable.combine]
    obtain ⟨b, hb⟩ := hret
    cases b with
    | true => exact hb
    | false =>
      rw [hfalse hb] at htrue
      cases htrue
  · intro d1 d2 e1 e2 hname hsd1 hsd2 hhd1 hhd2 hd he b
    constructor
    · exact IsReachable_same_values w self self2 c d1 d2 e1 e2 hname hsd1 hsd2 hhd1 hhd2
        (fun v => hd.mem_iff) (fun v => he.mem_iff) b
    · exact IsReachable_same_values w self2 self c d2 d1 e2 e1 hname.symm hsd2 hsd1 hhd2 hhd1
        (fun v => hd.symm.mem_iff) (fun v => he.symm.mem_iff) b

/-- C20, at host `O` in the registry with the hosts `P` and `Q`: listed as `P`,
`Q` or as `Q`, `P`, the dependencies give the same verdict. -/
theorem IsReachable_monotone_witness :
    Host.IsReachable worldPQ (hostO [("0", .Scalar "P"), ("1", .Scalar "Q")]) initialCache =
        .ok false ↔
    Host.IsReachable worldPQ (hostO [("0", .Scalar "Q"), ("1", .Scalar "P")]) initialCache =
        .ok false :=
  (IsReachable_monotone worldPQ (hostO [("0", .Scalar "P"), ("1", .Scalar "Q")])
      (hostO [("0", .Scalar "Q"), ("1", .Scalar "P")]) initialCache initialCache).2
    [] [] [("0", .Scalar "P"), ("1", .Scalar "Q")] [("0", .Scalar "Q"), ("1", .Scalar "P")]
    rfl rfl rfl rfl rfl (List.Perm.refl _) (List.Perm.swap _ _ _) false

/-! ## Reconciliation: the order of the expressions -/

theorem lastSet_append (a b : List Expression) (key : String) :
    lastSet (a ++ b) key =
      (match lastSet b key with
       | some v => some v
       | none => lastSet a key) := by
  induction a with
  | nil =>
    simp only [List.nil_append, lastSet]
    cases lastSet b key <;> rfl
  | cons e rest ih =>
    have hcons : lastSet (e :: (rest ++ b)) key =
        (match lastSet (rest ++ b) key with
         | some v => some v
         | none => if e.key = key ∧ e.op = .OperatorSet then some e.value else none) := rfl
    rw [List.cons_append, hcons, ih]
    cases lastSet b key <;> simp [lastSet]

theorem lastSet_copyRule (d : Dictionary) (k : String) (op : ExpressionOperator)
    (key : String) :
    lastSet (copyRule d k op) key =
      if k = key ∧ op = .OperatorSet ∧ (Dictionary.Get d k).IsEmpty = false then
        some (Dictionary.Get d k)
      else none := by
  unfold copyRule
  cases h : (Dictionary.Get d k).IsEmpty <;> simp [lastSet]

/-- The last `OperatorSet` expression that the copy rules give for one of the
four keys they set: the attribute, when it is not blank. -/
theorem lastSet_copied (flag : Bool) (d : Dictionary) (key : String)
    (hkey : key ∈ ["check_interval", "retry_interval", "checkers", "short_name"]) :
    lastSet (copiedExpressions flag d) key =
      if (Dictionary.Get d key).IsEmpty = false then some (Dictionary.Get d key) else none := by
  simp only [List.mem_cons, List.mem_singleton, List.not_mem_nil, or_false] at hkey
  unfold copiedExpressions
  rcases hkey with h | h | h | h <;> subst h <;> cases flag <;>
    simp only [lastSet_append, lastSet_copyRule, lastSet, Bool.false_eq_true, if_false,
      if_true] <;>
    simp <;>
    split_ifs <;> simp_all

theorem lastSet_builder (self : Host) (k : String) (v : Value) (key : String)
    (hkey : key ∈ ["check_interval", "retry_interval", "checkers", "short_name"]) :
    lastSet
      ([{ key := "host_name", op := .OperatorSet, value := .Scalar self.name },
        { key := "display_name", op := .OperatorSet,
          value := .Scalar (Host.UpdateSlaveServices.svcname k v) },
        { key := "short_name", op := .OperatorSet,
          value := .Scalar (Host.UpdateSlaveServices.svcname k v) }] ++
       copiedExpressions false self.attributes ++
       (match v with | .Mapping service => copiedExpressions true service | _ => [])) key =
    expectedLastSet self.attributes (Host.UpdateSlaveServices.svcname k v) v key := by
  have hfixed : lastSet
      [{ key := "host_name", op := .OperatorSet, value := .Scalar self.name },
       { key := "display_name", op := .OperatorSet,
         value := .Scalar (Host.UpdateSlaveServices.svcname k v) },
       { key := "short_name", op := .OperatorSet,
         value := .Scalar (Host.UpdateSlaveServices.svcname k v) }] key =
      if key = "short_name" then some (.Scalar (Host.UpdateSlaveServices.svcname k v))
      else none := by
    simp only [List.mem_cons, List.mem_singleton, List.not_mem_nil, or_false] at hkey
    rcases hkey with h | h | h | h <;> subst h <;> simp [lastSet]
  have hblank : Value.IsEmpty .Empty = true := rfl
  rw [lastSet_append, lastSet_append, lastSet_copied false self.attributes key hkey, hfixed]
  unfold expectedLastSet
  cases v with
  | Mapping service =>
    simp only [lastSet_copied true service key hkey]
    cases (Dictionary.Get service key).IsEmpty <;>
      cases (Dictionary.Get self.attributes key).IsEmpty <;> simp
  | Empty =>
    simp only [lastSet, hblank]
    cases (Dictionary.Get self.attributes key).IsEmpty <;> simp
  | Scalar s =>
    simp only [lastSet, hblank]
    cases (Dictionary.Get self.attributes key).IsEmpty <;> simp
  | Object id =>
    simp only [lastSet, hblank]
    cases (Dictionary.Get self.attributes key).IsEmpty <;> simp

theorem entryBuilder_expressions (self : Host) (dbg k : String) (v : Value)
    (b : ConfigItemBuilder)
    (h : Host.UpdateSlaveServices.entryBuilder self dbg k v = .ok b) :
    b.expressions =
      [{ key := "host_name", op := .OperatorSet, value := .Scalar self.name },
       { key := "display_name", op := .OperatorSet,
         value := .Scalar (Host.UpdateSlaveServices.svcname k v) },
       { key := "short_name", op := .OperatorSet,
         value := .Scalar (Host.UpdateSlaveServices.svcname k v) }] ++
      copiedExpressions false self.attributes ++
      (match v with | .Mapping service => copiedExpressions true service | _ => []) := by
  have h1 := (entryBuilder_ok self dbg k v b h).2.2.2.1
  rw [h1]
  cases v <;> rfl

/-- C21. In the expression list of the builder of an entry the three fixed
expressions (`host_name`, `display_name`, `short_name`) come first, the
expressions copied from the owner next, and the expressions copied from a
dictionary entry last. Hence, for each of the keys `check_interval`,
`retry_interval`, `checkers` and `short_name`, the last `OperatorSet` expression
of the list holds the value of the entry when the entry gives one, else the
value of the owner when it is not blank, else the fixed default. The items
committed by a reconciliation that returns normally carry these lists. -/
theorem UpdateSlaveServices_precedence (w : World) (self : Host) (item : ConfigItem)
    (d : List (String × Value))
    (hitem : w.GetItem "Host" self.name = some item) (habs : self.abstract = false)
    (hd : Dictionary.Get self.attributes "services" = .Mapping d)
    (hres : (Host.UpdateSlaveServices w self).result = .ok ()) :
    (∀ dbg k v b, Host.UpdateSlaveServices.entryBuilder self dbg k v = .ok b →
      b.expressions =
        [{ key := "host_name", op := .OperatorSet, value := .Scalar self.name },
         { key := "display_name", op := .OperatorSet,
           value := .Scalar (Host.UpdateSlaveServices.svcname k v) },
         { key := "short_name", op := .OperatorSet,
           value := .Scalar (Host.UpdateSlaveServices.svcname k v) }] ++
        copiedExpressions false self.attributes ++
        (match v with | .Mapping service => copiedExpressions true service | _ => []) ∧
      ∀ key ∈ ["check_interval", "retry_interval", "checkers", "short_name"],
        lastSet b.expressions key =
          expectedLastSet self.attributes (Host.UpdateSlaveServices.svcname k v) v key) ∧
    List.Forall₂ (fun e i =>
      ∀ key ∈ ["check_interval", "retry_interval", "checkers", "short_name"],
        lastSet i.expressions key =
          expectedLastSet self.attributes (Host.UpdateSlaveServices.svcname e.1 e.2) e.2 key)
      d (Host.UpdateSlaveServices w self).committed := by
  constructor
  · intro dbg k v b hb
    refine ⟨entryBuilder_expressions self dbg k v b hb, ?_⟩
    intro key hkey
    rw [entryBuilder_expressions self dbg k v b hb]
    exact lastSet_builder self k v key hkey
  · refine List.Forall₂.imp ?_ (UpdateSlaveServices_ok w self item d hitem habs hd hres).1
    intro e i h1 key hkey
    obtain ⟨b, hb, _, _, _, hex, _⟩ := entryItem_ok w self _ e i h1
    rw [hex, entryBuilder_expressions self _ e.1 e.2 b hb]
    exact lastSet_builder self e.1 e.2 key hkey

/-- C21, at host `L`, whose own `check_interval` is 300: the service of the
scalar entry `ping` gets 300 and the short name `ping`; the service of the
dictionary entry `http`, which gives 60, gets 60 and the short name `http`. -/
theorem UpdateSlaveServices_precedence_witness :
    (Host.UpdateSlaveServices worldL hostL).committed.map
        (fun i => (i.name, lastSet i.expressions "check_interval",
          lastSet i.expressions "short_name")) =
      [("L-ping", some (.Scalar "300"), some (.Scalar "ping")),
       ("L-http", some (.Scalar "60"), some (.Scalar "http"))] := by
  have h := (UpdateSlaveServices_precedence worldL hostL
    { type := "Host", name := "L", parents := [], expressions := [],
      debug_info := "hosts.conf:30" } _ rfl rfl rfl (by decide)).2
  have hnames : (Host.UpdateSlaveServices worldL hostL).committed.map (fun i => i.name) =
      ["L-ping", "L-http"] := by decide
  generalize (Host.UpdateSlaveServices worldL hostL).committed = cm at h hnames
  cases h with
  | cons h1 h2 =>
    cases h2 with
    | cons h3 h4 =>
      cases h4
      simp only [List.map_cons, List.map_nil, List.cons.injEq, and_true] at hnames
      simp only [List.map_cons, List.map_nil, h1 "check_interval" (by simp),
        h1 "short_name" (by simp), h3 "check_interval" (by simp), h3 "short_name" (by simp),
        hnames.1, hnames.2]
      decide

/-! ## Reachability: what raises, and with which error -/

end Icinga
